import Mathlib

/-!
Verification of the ALMReady curve-construction and scenario-shock engine.

The definitions below are a shallow embedding of the Python sources under
`src/backend/engine` (module paths noted on each definition).  Python floats
are modelled as exact rationals, `datetime.date` as a year/month/day record
over the proleptic Gregorian calendar, and raised exceptions as `Except`
values with an explicit error type.
-/

namespace ALMReady

/-- Model of Python `datetime.date`: a proleptic-Gregorian calendar date. -/
structure Date where
  year : ℕ
  month : ℕ
  day : ℕ
deriving DecidableEq

/-- `engine/core/daycount.py::is_leap_year`. -/
def is_leap_year (year : ℕ) : Bool :=
  (year % 4 == 0 && year % 100 != 0) || (year % 400 == 0)

/-- `engine/core/daycount.py::_last_day_of_month`. -/
def lastDayOfMonth (year month : ℕ) : ℕ :=
  if month = 2 then (if is_leap_year year then 29 else 28)
  else if month = 1 ∨ month = 3 ∨ month = 5 ∨ month = 7 ∨ month = 8 ∨ month = 10 ∨ month = 12 then 31
  else 30

/-- `engine/core/daycount.py::_is_last_day_of_month`. -/
def isLastDayOfMonth (d : Date) : Prop :=
  d.day = lastDayOfMonth d.year d.month

instance (d : Date) : Decidable (isLastDayOfMonth d) :=
  inferInstanceAs (Decidable (d.day = lastDayOfMonth d.year d.month))

/-- `engine/core/daycount.py::_is_last_day_of_february`. -/
def isLastDayOfFebruary (d : Date) : Prop :=
  d.month = 2 ∧ isLastDayOfMonth d

instance (d : Date) : Decidable (isLastDayOfFebruary d) :=
  inferInstanceAs (Decidable (d.month = 2 ∧ isLastDayOfMonth d))

/-- Number of leap years `y` with `1 ≤ y ≤ n` (Gregorian rule). -/
def leapCount (n : ℕ) : ℕ := n / 4 - n / 100 + n / 400

/-- Days in calendar year `y` (366 for leap years). -/
def daysInYear (y : ℕ) : ℕ := if is_leap_year y then 366 else 365

/-- Days of year `y` strictly before month `m` (months 1-12). -/
def daysBeforeMonth (y : ℕ) : ℕ → ℕ
  | 0 => 0
  | 1 => 0
  | m + 2 => daysBeforeMonth y (m + 1) + lastDayOfMonth y (m + 1)

/-- One-based ordinal of the date within its calendar year. -/
def dayOfYear (d : Date) : ℕ := daysBeforeMonth d.year d.month + d.day

/-- Proleptic-Gregorian day number (Rata Die), models `date.toordinal()`:
day number 1 is 0001-01-01. -/
def dayNumber (d : Date) : ℤ :=
  365 * ((d.year : ℤ) - 1) + (leapCount (d.year - 1) : ℤ) + (dayOfYear d : ℤ)

/-- Models Python `(d1 - d0).days`. -/
def daysBetween (d0 d1 : Date) : ℤ := dayNumber d1 - dayNumber d0

/-- Python `date` comparison: lexicographic on (year, month, day). -/
def dateLt (a b : Date) : Prop :=
  a.year < b.year ∨ (a.year = b.year ∧ (a.month < b.month ∨ (a.month = b.month ∧ a.day < b.day)))

instance (a b : Date) : Decidable (dateLt a b) :=
  inferInstanceAs (Decidable (_ ∨ _))

/-- A well-formed calendar date (what `datetime.date` enforces). -/
def Date.Valid (d : Date) : Prop :=
  1 ≤ d.year ∧ 1 ≤ d.month ∧ d.month ≤ 12 ∧ 1 ≤ d.day ∧ d.day ≤ lastDayOfMonth d.year d.month

instance (d : Date) : Decidable d.Valid :=
  inferInstanceAs (Decidable (_ ∧ _))

/-- Python `str.strip()`: drop leading and trailing whitespace (char-level
model of Lean's opaque `String.trim`). -/
def stripStr (s : String) : String :=
  ⟨((s.data.dropWhile Char.isWhitespace).reverse.dropWhile Char.isWhitespace).reverse⟩

/-- Python `str.upper()` (char-level model). -/
def upperStr (s : String) : String := ⟨s.data.map Char.toUpper⟩

/-- Lexicographic code-point order on char lists (Python string `<=`). -/
def charListLe : List Char → List Char → Bool
  | [], _ => true
  | _ :: _, [] => false
  | a :: as, b :: bs =>
    if a.val < b.val then true
    else if b.val < a.val then false
    else charListLe as bs

/-- Python string ordering used by `sorted(...)` (char-level model of the
opaque `String` order). -/
def strLe (a b : String) : Bool := charListLe a.data b.data

instance {ε α : Type} [DecidableEq ε] [DecidableEq α] : DecidableEq (Except ε α) := fun x y =>
  match x, y with
  | .ok a, .ok b =>
    if h : a = b then isTrue (by rw [h]) else isFalse (fun hh => h (Except.ok.inj hh))
  | .error a, .error b =>
    if h : a = b then isTrue (by rw [h]) else isFalse (fun hh => h (Except.error.inj hh))
  | .ok _, .error _ => isFalse (fun hh => Except.noConfusion hh)
  | .error _, .ok _ => isFalse (fun hh => Except.noConfusion hh)

/-- Error taxonomy of the engine (each Python `raise` site is tagged with the
spec's error kind from spec §7; messages are not modelled, kinds are). -/
inductive EngineError where
  | invalidDateOrder : EngineError
  | unsupportedBase : String → EngineError
  | invalidCurve : String → EngineError
  | emptyShockTarget : EngineError
  | unknownIndex : List String → List String → EngineError
  | duplicateScenario : String → EngineError
deriving DecidableEq

/-- `engine/core/daycount.py::BASE_ACT_360`. -/
def BASE_ACT_360 : String := "ACT/360"
/-- `engine/core/daycount.py::BASE_ACT_365`. -/
def BASE_ACT_365 : String := "ACT/365"
/-- `engine/core/daycount.py::BASE_ACT_ACT`. -/
def BASE_ACT_ACT : String := "ACT/ACT"
/-- `engine/core/daycount.py::BASE_30_360`. -/
def BASE_30_360 : String := "30/360"

/-- `engine/core/daycount.py::yearfrac_act_act_isda`. -/
def yearfrac_act_act_isda (d0 d1 : Date) : Except EngineError ℚ :=
  if dateLt d1 d0 then .error .invalidDateOrder
  else if d0 = d1 then .ok 0
  else if d0.year = d1.year then
    .ok ((daysBetween d0 d1 : ℚ) / (daysInYear d0.year : ℚ))
  else
    let end_y0 : Date := ⟨d0.year + 1, 1, 1⟩
    let yf0 : ℚ := (daysBetween d0 end_y0 : ℚ) / (daysInYear d0.year : ℚ)
    let whole : ℚ := ((max 0 ((d1.year : ℤ) - (d0.year : ℤ) - 1) : ℤ) : ℚ)
    let start_y1 : Date := ⟨d1.year, 1, 1⟩
    let yf1 : ℚ := (daysBetween start_y1 d1 : ℚ) / (daysInYear d1.year : ℚ)
    .ok (yf0 + whole + yf1)

/-- `engine/core/daycount.py::yearfrac_30_360_us`: 30/360 (US) with the NASD
end-of-February adjustment, translating the four sequential day mutations. -/
def yearfrac_30_360_us (d0 d1 : Date) : Except EngineError ℚ :=
  if dateLt d1 d0 then .error .invalidDateOrder
  else
    let d0_day1 : ℕ := if isLastDayOfFebruary d0 then 30 else d0.day
    let d1_day1 : ℕ := if isLastDayOfFebruary d1 ∧ (d0_day1 = 30 ∨ d0_day1 = 31) then 30 else d1.day
    let d0_day2 : ℕ := if d0_day1 = 31 then 30 else d0_day1
    let d1_day2 : ℕ := if d1_day1 = 31 ∧ (d0_day2 = 30 ∨ d0_day2 = 31) then 30 else d1_day1
    let days_360 : ℤ :=
      360 * ((d1.year : ℤ) - (d0.year : ℤ))
        + 30 * ((d1.month : ℤ) - (d0.month : ℤ))
        + ((d1_day2 : ℤ) - (d0_day2 : ℤ))
    .ok ((days_360 : ℚ) / 360)

/-- `engine/core/daycount.py::yearfrac`: dispatcher over the four canonical
daycount bases. -/
def yearfrac (d0 d1 : Date) (base : String) : Except EngineError ℚ :=
  if dateLt d1 d0 then .error .invalidDateOrder
  else
    let days : ℤ := daysBetween d0 d1
    if base = BASE_ACT_360 then .ok ((days : ℚ) / 360)
    else if base = BASE_ACT_365 then .ok ((days : ℚ) / 365)
    else if base = BASE_ACT_ACT then yearfrac_act_act_isda d0 d1
    else if base = BASE_30_360 then yearfrac_30_360_us d0 d1
    else .error (.unsupportedBase base)

/-- Day number of January 1st of year `y`. -/
def yearStart (y : ℕ) : ℤ := dayNumber ⟨y, 1, 1⟩

/-- The part of `[d0, d1]` (in days) that falls inside calendar year `y`,
divided by that year's day count.  Spec-side comparison definition for the
ACT/ACT-ISDA refinement claim, following the spec's words: "splits the
interval at calendar-year boundaries; each year-fragment divided by that
calendar year's day count". -/
def yearFragment (d0 d1 : Date) (y : ℕ) : ℚ :=
  ((max 0 (min (dayNumber d1) (yearStart (y + 1)) - max (dayNumber d0) (yearStart y)) : ℤ) : ℚ)
    / (daysInYear y : ℚ)

/-- Spec-side ACT/ACT-ISDA: sum of the per-calendar-year fragments. -/
def actActIsdaSpec (d0 d1 : Date) : ℚ :=
  ∑ y ∈ Finset.Icc d0.year d1.year, yearFragment d0 d1 y

/-- `engine/core/curves.py::CurvePoint`. -/
structure CurvePoint where
  year_frac : ℚ
  rate : ℚ
  tenor : String
  tenor_date : Date
deriving DecidableEq

/-- `engine/core/curves.py::ForwardCurve` (the record; the `__post_init__`
validation is `mkForwardCurve` below, and validated curves satisfy
`ForwardCurve.Sorted`). -/
structure ForwardCurve where
  index_name : String
  points : List CurvePoint
deriving DecidableEq

/-- The invariant `__post_init__` establishes: points sorted with strictly
increasing `year_frac`. -/
def ForwardCurve.Sorted (c : ForwardCurve) : Prop :=
  List.Chain' (fun p q : CurvePoint => p.year_frac < q.year_frac) c.points

instance (c : ForwardCurve) : Decidable c.Sorted :=
  inferInstanceAs (Decidable (List.Chain' _ c.points))

/-- `ForwardCurve.year_fracs`. -/
def ForwardCurve.year_fracs (c : ForwardCurve) : List ℚ :=
  c.points.map (fun p => p.year_frac)

/-- `ForwardCurve._pillar_ln_dfs`: `ln(DF_i) = -r_i * T_i`. -/
def ForwardCurve.pillar_ln_dfs (c : ForwardCurve) : List ℚ :=
  c.points.map (fun p => -p.rate * p.year_frac)

/-- `ForwardCurve._interp_linear(x, x0, x1, y0, y1)`. -/
def interp_linear (x x0 x1 y0 y1 : ℚ) : ℚ :=
  if x1 = x0 then y1 else y0 + (x - x0) / (x1 - x0) * (y1 - y0)

/-- `bisect.bisect_left(xs, t)` for a sorted list: the number of elements
strictly below `t` (the insertion point keeping `t` left of equals). -/
def bisectLeft (xs : List ℚ) (t : ℚ) : ℕ :=
  xs.countP (fun x => decide (x < t))

/-- The `ln DF(t)` computation inside
`engine/core/curves.py::ForwardCurve.discount_factor` for `t > 0` (the code
computes `ln_df_t` by the branches below and returns `exp(ln_df_t)`); in the
single-pillar case the code's two branches are the same expression. -/
def ForwardCurve.lnDf (c : ForwardCurve) (t : ℚ) : ℚ :=
  let xs := c.year_fracs
  let ln_dfs := c.pillar_ln_dfs
  if xs.length = 1 then
    interp_linear t 0 (xs.getD 0 0) 0 (ln_dfs.getD 0 0)
  else if t ≤ xs.getD 0 0 then
    interp_linear t 0 (xs.getD 0 0) 0 (ln_dfs.getD 0 0)
  else if xs.getD (xs.length - 1) 0 ≤ t then
    interp_linear t (xs.getD (xs.length - 2) 0) (xs.getD (xs.length - 1) 0)
      (ln_dfs.getD (ln_dfs.length - 2) 0) (ln_dfs.getD (ln_dfs.length - 1) 0)
  else
    let j := bisectLeft xs t
    interp_linear t (xs.getD (j - 1) 0) (xs.getD j 0)
      (ln_dfs.getD (j - 1) 0) (ln_dfs.getD j 0)

/-- `ForwardCurve.discount_factor`: `1.0` for `t ≤ 0`, else `exp(ln_df_t)`.
(`ℝ`-valued because of `exp`; the rational core is `lnDf`.) -/
noncomputable def ForwardCurve.discount_factor (c : ForwardCurve) (t : ℚ) : ℝ :=
  if t ≤ 0 then 1 else Real.exp ((c.lnDf t : ℚ) : ℝ)

/-- The pillar knots of a curve as `(year_frac, ln DF)` pairs. -/
def ForwardCurve.pillars (c : ForwardCurve) : List (ℚ × ℚ) :=
  c.points.map (fun p => (p.year_frac, -p.rate * p.year_frac))

/-- Reference piecewise-linear evaluator through base knot `(x0, y0)` and the
knots of `l`, extending the last segment linearly on both sides; used to
reason about `lnDf` as a whole function. -/
def pwEval (x0 y0 : ℚ) : List (ℚ × ℚ) → ℚ → ℚ
  | [], _ => y0
  | [(x1, y1)], t => interp_linear t x0 x1 y0 y1
  | (x1, y1) :: q :: ps, t =>
    if t ≤ x1 then interp_linear t x0 x1 y0 y1 else pwEval x1 y1 (q :: ps) t

/-- The strict-monotonicity loop in `ForwardCurve.__post_init__`. -/
def strictlyInc : List ℚ → Bool
  | [] => true
  | [_] => true
  | a :: b :: rest => decide (a < b) && strictlyInc (b :: rest)

/-- `ForwardCurve.__post_init__`: sort by `year_frac` (Python `list.sort` is
stable; modelled by the stable `insertionSort`), then validate strictly
increasing `YearFrac`. -/
def mkForwardCurve (index_name : String) (points : List CurvePoint) :
    Except EngineError ForwardCurve :=
  if points.isEmpty then .error (.invalidCurve index_name)
  else
    let sortedPts := points.insertionSort (fun p q => p.year_frac ≤ q.year_frac)
    if strictlyInc (sortedPts.map (fun p => p.year_frac)) then
      .ok ⟨index_name, sortedPts⟩
    else .error (.invalidCurve index_name)

/-- One row of the canonical long-form curve table (spec §6).  The pandas
DataFrame of `ForwardCurveSet.points` is modelled as a typed list of rows, so
the required columns `IndexName, Tenor, FwdRate, TenorDate, YearFrac` are
present by construction and `_validate_curve_points_columns` always passes. -/
structure Row where
  IndexName : String
  Tenor : String
  FwdRate : ℚ
  TenorDate : Date
  YearFrac : ℚ
deriving DecidableEq

/-- `engine/services/market.py::ForwardCurveSet` (curves as an association
list from index name to curve). -/
structure ForwardCurveSet where
  analysis_date : Date
  base : String
  points : List Row
  curves : List (String × ForwardCurve)
deriving DecidableEq

/-- `engine/scenarios/shocks.py::ParallelShock`. -/
structure ParallelShock where
  name : String
  shift_bps : ℚ
deriving DecidableEq

/-- `ParallelShock.shift_decimal`. -/
def ParallelShock.shift_decimal (s : ParallelShock) : ℚ := s.shift_bps / 10000

/-- `engine/core/curves.py::curve_from_long_df` (the typed table has no
missing columns and no nulls, so only the empty-selection check remains
before `ForwardCurve` construction). -/
def curve_from_long_df (df : List Row) (index_name : String) :
    Except EngineError ForwardCurve :=
  let sub := df.filter (fun r => r.IndexName == index_name)
  if sub.isEmpty then .error (.invalidCurve index_name)
  else
    mkForwardCurve index_name
      (sub.map (fun r => ⟨r.YearFrac, r.FwdRate, upperStr (stripStr r.Tenor), r.TenorDate⟩))

/-- `set(df["IndexName"].astype(str).unique())`: the distinct index names of
a table (a list modelling the Python set by membership). -/
def availableIndexes (df : List Row) : List String :=
  (df.map (fun r => r.IndexName)).dedup

/-- `engine/scenarios/apply.py::_normalise_apply_to` (same logic as
`almready/scenarios/apply.py::_normalise_apply_to`): entries are stripped,
blanks discarded, the result checked non-empty and against the available
indices. -/
def normaliseApplyTo (apply_to : Option (List String)) (available : List String) :
    Except EngineError (List String) :=
  match apply_to with
  | none => .ok available
  | some l =>
    let selected := ((l.map (fun ix => stripStr ix)).filter (fun s => !(s == ""))).dedup
    if selected.isEmpty then .error .emptyShockTarget
    else
      let unknown := selected.filter (fun s => !(available.contains s))
      if !unknown.isEmpty then .error (.unknownIndex unknown available)
      else .ok selected

/-- The `for index_name in indexes` loop of `_rebuild_curves`. -/
def rebuildCurvesAux (df : List Row) :
    List String → Except EngineError (List (String × ForwardCurve))
  | [] => .ok []
  | ix :: rest =>
    match curve_from_long_df df ix with
    | .error e => .error e
    | .ok c =>
      match rebuildCurvesAux df rest with
      | .error e => .error e
      | .ok cs => .ok ((ix, c) :: cs)

/-- `almready/scenarios/apply.py::_rebuild_curves` (the engine variant lives
in `engine/scenarios/_curve_utils.py`, imported by `engine/scenarios/apply.py`
with identical call behaviour): one validated curve per distinct index, in
sorted index order. -/
def rebuildCurves (df : List Row) : Except EngineError (List (String × ForwardCurve)) :=
  rebuildCurvesAux df
    ((df.map (fun r => r.IndexName)).dedup.insertionSort (fun a b => strLe a b = true))

/-- `engine/scenarios/apply.py::apply_parallel_shock`: copy the table, shift
`FwdRate` on the selected rows, rebuild the curves and wrap a new set. -/
def applyParallelShock (base_set : ForwardCurveSet) (shock : ParallelShock)
    (apply_to : Option (List String)) : Except EngineError ForwardCurveSet :=
  let available := availableIndexes base_set.points
  match normaliseApplyTo apply_to available with
  | .error e => .error e
  | .ok selected =>
    let df_shifted := base_set.points.map (fun r =>
      if selected.contains r.IndexName then
        { r with FwdRate := r.FwdRate + shock.shift_decimal }
      else r)
    match rebuildCurves df_shifted with
    | .error e => .error e
    | .ok shifted_curves =>
      .ok ⟨base_set.analysis_date, base_set.base, df_shifted, shifted_curves⟩

/-- Loop body of `engine/scenarios/apply.py::apply_parallel_shocks`
(accumulator `out` holds the scenarios built so far, in order). -/
def applyParallelShocksAux (base_set : ForwardCurveSet)
    (apply_to : Option (List String)) :
    List ParallelShock → List (String × ForwardCurveSet) →
      Except EngineError (List (String × ForwardCurveSet))
  | [], out => .ok out
  | shock :: rest, out =>
    if (out.map (fun p => p.1)).contains shock.name then
      .error (.duplicateScenario shock.name)
    else
      match applyParallelShock base_set shock apply_to with
      | .error e => .error e
      | .ok r => applyParallelShocksAux base_set apply_to rest (out ++ [(shock.name, r)])

/-- `engine/scenarios/apply.py::apply_parallel_shocks`. -/
def applyParallelShocks (base_set : ForwardCurveSet) (shocks : List ParallelShock)
    (apply_to : Option (List String)) :
    Except EngineError (List (String × ForwardCurveSet)) :=
  applyParallelShocksAux base_set apply_to shocks []

/-- The two-pillar example curve of spec §8: pillars (1y, r=0.02) and
(2y, r=0.03). -/
def exampleCurve : ForwardCurve :=
  ⟨"EUR", [⟨1, 2/100, "1Y", ⟨2025, 1, 2⟩⟩, ⟨2, 3/100, "2Y", ⟨2026, 1, 2⟩⟩]⟩

/-- A valid curve with all pillar rates positive whose discount factor is not
decreasing: ln DF pillars are -0.10 and -0.02. -/
def humpCurve : ForwardCurve :=
  ⟨"HUMP", [⟨1, 10/100, "1Y", ⟨2025, 1, 2⟩⟩, ⟨2, 1/100, "2Y", ⟨2026, 1, 2⟩⟩]⟩

/-- A small two-index curve table for the scenario examples. -/
def exampleRows : List Row :=
  [⟨"EUR", "1Y", 2/100, ⟨2025, 1, 2⟩, 1⟩,
   ⟨"EUR", "2Y", 3/100, ⟨2026, 1, 2⟩, 2⟩,
   ⟨"USD", "1Y", 4/100, ⟨2025, 1, 2⟩, 1⟩]

/-- A concrete base `ForwardCurveSet` over `exampleRows`. -/
def exampleBaseSet : ForwardCurveSet :=
  ⟨⟨2024, 1, 2⟩, "ACT/365", exampleRows,
   [("EUR", exampleCurve), ("USD", ⟨"USD", [⟨1, 4/100, "1Y", ⟨2025, 1, 2⟩⟩]⟩)]⟩

/-- Default row used with `List.getD` in row-wise statements. -/
def dRow : Row := ⟨"", "", 0, ⟨1, 1, 1⟩, 0⟩

/-- A +100bp parallel shock. -/
def upShock : ParallelShock := ⟨"up", 100⟩

/-- A -100bp parallel shock. -/
def dnShock : ParallelShock := ⟨"dn", -100⟩

/-- `exampleBaseSet` shocked by +100bp on all indices. -/
def exampleShockedSet : ForwardCurveSet :=
  ⟨⟨2024, 1, 2⟩, "ACT/365",
   [⟨"EUR", "1Y", 3/100, ⟨2025, 1, 2⟩, 1⟩,
    ⟨"EUR", "2Y", 4/100, ⟨2026, 1, 2⟩, 2⟩,
    ⟨"USD", "1Y", 5/100, ⟨2025, 1, 2⟩, 1⟩],
   [("EUR", ⟨"EUR", [⟨1, 3/100, "1Y", ⟨2025, 1, 2⟩⟩, ⟨2, 4/100, "2Y", ⟨2026, 1, 2⟩⟩]⟩),
    ("USD", ⟨"USD", [⟨1, 5/100, "1Y", ⟨2025, 1, 2⟩⟩]⟩)]⟩

/-- `exampleBaseSet` shocked by -100bp on all indices. -/
def exampleShockedSetDn : ForwardCurveSet :=
  ⟨⟨2024, 1, 2⟩, "ACT/365",
   [⟨"EUR", "1Y", 1/100, ⟨2025, 1, 2⟩, 1⟩,
    ⟨"EUR", "2Y", 2/100, ⟨2026, 1, 2⟩, 2⟩,
    ⟨"USD", "1Y", 3/100, ⟨2025, 1, 2⟩, 1⟩],
   [("EUR", ⟨"EUR", [⟨1, 1/100, "1Y", ⟨2025, 1, 2⟩⟩, ⟨2, 2/100, "2Y", ⟨2026, 1, 2⟩⟩]⟩),
    ("USD", ⟨"USD", [⟨1, 3/100, "1Y", ⟨2025, 1, 2⟩⟩]⟩)]⟩

/-- `exampleBaseSet` shocked by +100bp on the EUR index only. -/
def exampleShockedSetEUR : ForwardCurveSet :=
  ⟨⟨2024, 1, 2⟩, "ACT/365",
   [⟨"EUR", "1Y", 3/100, ⟨2025, 1, 2⟩, 1⟩,
    ⟨"EUR", "2Y", 4/100, ⟨2026, 1, 2⟩, 2⟩,
    ⟨"USD", "1Y", 4/100, ⟨2025, 1, 2⟩, 1⟩],
   [("EUR", ⟨"EUR", [⟨1, 3/100, "1Y", ⟨2025, 1, 2⟩⟩, ⟨2, 4/100, "2Y", ⟨2026, 1, 2⟩⟩]⟩),
    ("USD", ⟨"USD", [⟨1, 4/100, "1Y", ⟨2025, 1, 2⟩⟩]⟩)]⟩

end ALMReady

namespace ALMReady

/-! ### Calendar arithmetic lemmas -/

theorem leapCount_succ (y : ℕ) :
    leapCount (y + 1) = leapCount y + (if is_leap_year (y + 1) then 1 else 0) := by
  unfold leapCount is_leap_year
  split_ifs with h
  · simp only [Bool.or_eq_true, Bool.and_eq_true, beq_iff_eq, bne_iff_ne, ne_eq,
      decide_eq_true_eq] at h
    omega
  · simp only [Bool.or_eq_true, Bool.and_eq_true, beq_iff_eq, bne_iff_ne, ne_eq,
      decide_eq_true_eq, not_or, not_and] at h
    omega

theorem yearStart_succ (y : ℕ) (hy : 1 ≤ y) :
    yearStart (y + 1) = yearStart y + (daysInYear y : ℤ) := by
  unfold yearStart dayNumber dayOfYear daysInYear daysBeforeMonth
  have hstep : leapCount y = leapCount (y - 1) + (if is_leap_year y then 1 else 0) := by
    have h := leapCount_succ (y - 1)
    have hy1 : y - 1 + 1 = y := by omega
    rw [hy1] at h
    exact h
  split_ifs with h <;> simp [hstep, h] <;> omega

theorem daysBeforeMonth_succ (y m : ℕ) (hm : 1 ≤ m) :
    daysBeforeMonth y (m + 1) = daysBeforeMonth y m + lastDayOfMonth y m := by
  match m, hm with
  | k + 1, _ => rfl

theorem daysBeforeMonth_le (y : ℕ) {a b : ℕ} (h : a ≤ b) :
    daysBeforeMonth y a ≤ daysBeforeMonth y b := by
  induction b with
  | zero => simp_all
  | succ k ih =>
    rcases Nat.lt_or_ge a (k + 1) with hk | hk
    · have hle := ih (by omega)
      match k with
      | 0 => simp_all [daysBeforeMonth]
      | j + 1 => rw [daysBeforeMonth_succ y (j + 1) (by omega)]; omega
    · have ha : a = k + 1 := by omega
      rw [ha]

theorem dayOfYear_bounds (d : Date) (hv : d.Valid) :
    1 ≤ dayOfYear d ∧ dayOfYear d ≤ daysInYear d.year := by
  obtain ⟨y, m, dd⟩ := d
  obtain ⟨hy, hm1, hm2, hd1, hd2⟩ := hv
  simp only at hy hm1 hm2 hd1 hd2
  unfold dayOfYear daysInYear
  simp only
  interval_cases m <;>
    simp_all [daysBeforeMonth, lastDayOfMonth] <;> split_ifs at * <;> omega

theorem yearStart_le_dayNumber (d : Date) (hv : d.Valid) : yearStart d.year ≤ dayNumber d := by
  have hb := (dayOfYear_bounds d hv).1
  unfold yearStart dayNumber
  simp only [dayOfYear, daysBeforeMonth]
  unfold dayOfYear at hb
  omega

theorem dayNumber_lt_yearStart_succ (d : Date) (hv : d.Valid) :
    dayNumber d < yearStart (d.year + 1) := by
  have hb := (dayOfYear_bounds d hv).2
  have hs := yearStart_succ d.year hv.1
  have h0 : yearStart d.year = dayNumber d - (dayOfYear d : ℤ) + 1 := by
    unfold yearStart dayNumber
    simp only [dayOfYear, daysBeforeMonth]
    omega
  omega

theorem yearStart_mono {a b : ℕ} (ha : 1 ≤ a) (h : a ≤ b) : yearStart a ≤ yearStart b := by
  induction b with
  | zero => omega
  | succ k ih =>
    rcases Nat.lt_or_ge a (k + 1) with hk | hk
    · have h1 := ih (by omega)
      have h2 := yearStart_succ k (by omega)
      have h3 : (0:ℤ) < (daysInYear k : ℤ) := by unfold daysInYear; split_ifs <;> omega
      omega
    · have ha2 : a = k + 1 := by omega
      rw [ha2]

theorem daysInYear_pos (y : ℕ) : (0:ℤ) < (daysInYear y : ℤ) := by
  unfold daysInYear; split_ifs <;> omega

theorem dateLt_irrefl (d : Date) : ¬ dateLt d d := by
  unfold dateLt; omega

theorem dayOfYear_le_of_le (a b : Date) (hva : a.Valid) (hvb : b.Valid)
    (hy : a.year = b.year) (h : ¬ dateLt b a) : dayOfYear a ≤ dayOfYear b := by
  obtain ⟨_, hm1a, hm2a, hd1a, hd2a⟩ := hva
  unfold dateLt at h
  push_neg at h
  rcases Nat.lt_or_ge a.month b.month with hm | hm
  · have h1 : daysBeforeMonth a.year a.month + lastDayOfMonth a.year a.month ≤
        daysBeforeMonth a.year b.month := by
      have := daysBeforeMonth_succ a.year a.month hm1a
      have := daysBeforeMonth_le a.year (show a.month + 1 ≤ b.month by omega)
      omega
    unfold dayOfYear
    rw [← hy]
    have hb1 : 1 ≤ b.day := hvb.2.2.2.1
    omega
  · have hme : a.month = b.month := by
      obtain ⟨h1, h2⟩ := h
      omega
    have hdle : a.day ≤ b.day := by
      obtain ⟨h1, h2⟩ := h
      have := h2 hy.symm
      omega
    unfold dayOfYear
    rw [← hy, hme]
    omega

theorem dayNumber_le_of_not_lt (a b : Date) (hva : a.Valid) (hvb : b.Valid)
    (h : ¬ dateLt b a) : dayNumber a ≤ dayNumber b := by
  rcases Nat.lt_or_ge a.year b.year with hy | hy
  · have h1 := dayNumber_lt_yearStart_succ a hva
    have h2 := yearStart_le_dayNumber b hvb
    have h3 := yearStart_mono (show 1 ≤ a.year + 1 by omega) (show a.year + 1 ≤ b.year by omega)
    omega
  · have hye : a.year = b.year := by
      unfold dateLt at h
      push_neg at h
      omega
    have hd := dayOfYear_le_of_le a b hva hvb hye h
    unfold dayNumber
    rw [hye]
    omega

/-! ### ACT/ACT-ISDA refinement lemmas -/

theorem yearFragment_whole (d0 d1 : Date) (hv0 : d0.Valid) (hv1 : d1.Valid) {y : ℕ}
    (h0 : d0.year < y) (h1 : y < d1.year) : yearFragment d0 d1 y = 1 := by
  have hy1 : 1 ≤ y := by have := hv0.1; omega
  have hlo : dayNumber d0 ≤ yearStart y := by
    have h2 := dayNumber_lt_yearStart_succ d0 hv0
    have h3 := yearStart_mono (show 1 ≤ d0.year + 1 by omega) (show d0.year + 1 ≤ y by omega)
    omega
  have hhi : yearStart (y + 1) ≤ dayNumber d1 := by
    have h2 := yearStart_le_dayNumber d1 hv1
    have h3 := yearStart_mono (show 1 ≤ y + 1 by omega) (show y + 1 ≤ d1.year by omega)
    omega
  unfold yearFragment
  rw [max_eq_right hlo, min_eq_right hhi, yearStart_succ y hy1]
  have hstep : yearStart y + (daysInYear y : ℤ) - yearStart y = (daysInYear y : ℤ) := by ring
  rw [hstep, max_eq_right (le_of_lt (daysInYear_pos y))]
  have hne : ((daysInYear y : ℕ) : ℚ) ≠ 0 := by
    exact_mod_cast (daysInYear_pos y).ne'
  push_cast
  exact div_self hne

theorem yearFragment_same_year (d0 d1 : Date) (hv0 : d0.Valid) (hv1 : d1.Valid)
    (hy0 : d0.year = d1.year) :
    yearFragment d0 d1 d0.year =
      ((max 0 (dayNumber d1 - dayNumber d0) : ℤ) : ℚ) / (daysInYear d0.year : ℚ) := by
  have hlo : yearStart d0.year ≤ dayNumber d0 := yearStart_le_dayNumber d0 hv0
  have hhi : dayNumber d1 ≤ yearStart (d0.year + 1) := by
    have := dayNumber_lt_yearStart_succ d1 hv1
    rw [← hy0] at this
    omega
  unfold yearFragment
  rw [max_eq_left hlo, min_eq_left hhi]

theorem yearFragment_first (d0 d1 : Date) (hv0 : d0.Valid) (hv1 : d1.Valid)
    (hylt : d0.year < d1.year) :
    yearFragment d0 d1 d0.year =
      ((daysBetween d0 ⟨d0.year + 1, 1, 1⟩ : ℤ) : ℚ) / (daysInYear d0.year : ℚ) := by
  have hlo : yearStart d0.year ≤ dayNumber d0 := yearStart_le_dayNumber d0 hv0
  have hhi : yearStart (d0.year + 1) ≤ dayNumber d1 := by
    have h2 := yearStart_le_dayNumber d1 hv1
    have h3 := yearStart_mono (show 1 ≤ d0.year + 1 by have := hv0.1; omega)
      (show d0.year + 1 ≤ d1.year by omega)
    omega
  have hpos : (0:ℤ) ≤ yearStart (d0.year + 1) - dayNumber d0 := by
    have := dayNumber_lt_yearStart_succ d0 hv0
    omega
  unfold yearFragment
  rw [max_eq_left hlo, min_eq_right hhi, max_eq_right hpos]
  rfl

theorem yearFragment_last (d0 d1 : Date) (hv0 : d0.Valid) (hv1 : d1.Valid)
    (hylt : d0.year < d1.year) :
    yearFragment d0 d1 d1.year =
      ((daysBetween ⟨d1.year, 1, 1⟩ d1 : ℤ) : ℚ) / (daysInYear d1.year : ℚ) := by
  have hlo : dayNumber d0 ≤ yearStart d1.year := by
    have h2 := dayNumber_lt_yearStart_succ d0 hv0
    have h3 := yearStart_mono (show 1 ≤ d0.year + 1 by have := hv0.1; omega)
      (show d0.year + 1 ≤ d1.year by omega)
    omega
  have hhi : dayNumber d1 ≤ yearStart (d1.year + 1) :=
    le_of_lt (dayNumber_lt_yearStart_succ d1 hv1)
  have hpos : (0:ℤ) ≤ dayNumber d1 - yearStart d1.year := by
    have := yearStart_le_dayNumber d1 hv1
    omega
  unfold yearFragment
  rw [max_eq_right hlo, min_eq_left hhi, max_eq_right hpos]
  rfl

theorem actActIsda_eq_spec (d0 d1 : Date) (hv0 : d0.Valid) (hv1 : d1.Valid)
    (hle : ¬ dateLt d1 d0) :
    yearfrac_act_act_isda d0 d1 = .ok (actActIsdaSpec d0 d1) := by
  have hdn := dayNumber_le_of_not_lt d0 d1 hv0 hv1 hle
  unfold yearfrac_act_act_isda
  rw [if_neg hle]
  by_cases heq : d0 = d1
  · rw [if_pos heq]
    subst heq
    unfold actActIsdaSpec
    rw [Finset.Icc_self, Finset.sum_singleton, yearFragment_same_year d0 d0 hv0 hv0 rfl]
    simp
  · rw [if_neg heq]
    by_cases hyy : d0.year = d1.year
    · rw [if_pos hyy]
      unfold actActIsdaSpec
      rw [← hyy, Finset.Icc_self, Finset.sum_singleton,
        yearFragment_same_year d0 d1 hv0 hv1 hyy,
        max_eq_right (by omega : (0:ℤ) ≤ dayNumber d1 - dayNumber d0)]
      rfl
    · have hylt : d0.year < d1.year := by
        unfold dateLt at hle
        push_neg at hle
        omega
      rw [if_neg hyy]
      have hsplit : actActIsdaSpec d0 d1 =
          yearFragment d0 d1 d0.year
            + (∑ y ∈ Finset.Ioo d0.year d1.year, yearFragment d0 d1 y)
            + yearFragment d0 d1 d1.year := by
        unfold actActIsdaSpec
        rw [← Finset.Ioc_insert_left (le_of_lt hylt), Finset.sum_insert (by simp),
          ← Finset.Ioo_insert_right hylt, Finset.sum_insert (by simp)]
        ring
      have hmid : ∑ y ∈ Finset.Ioo d0.year d1.year, yearFragment d0 d1 y =
          ((d1.year - d0.year - 1 : ℕ) : ℚ) := by
        have hconst : ∀ y ∈ Finset.Ioo d0.year d1.year, yearFragment d0 d1 y = (1:ℚ) := by
          intro y hy
          rw [Finset.mem_Ioo] at hy
          exact yearFragment_whole d0 d1 hv0 hv1 hy.1 hy.2
        have hsum : ∑ y ∈ Finset.Ioo d0.year d1.year, yearFragment d0 d1 y =
            ∑ _y ∈ Finset.Ioo d0.year d1.year, (1:ℚ) := Finset.sum_congr rfl hconst
        rw [hsum, Finset.sum_const, Nat.card_Ioo]
        simp
      have hwhole : ((max 0 ((d1.year : ℤ) - (d0.year : ℤ) - 1) : ℤ) : ℚ) =
          ((d1.year - d0.year - 1 : ℕ) : ℚ) := by
        rw [max_eq_right (by omega : (0:ℤ) ≤ (d1.year : ℤ) - (d0.year : ℤ) - 1)]
        push_cast [Nat.cast_sub (by omega : 1 ≤ d1.year - d0.year),
          Nat.cast_sub (le_of_lt hylt)]
        ring
      simp only [Except.ok.injEq]
      rw [hsplit, hmid, yearFragment_first d0 d1 hv0 hv1 hylt,
        yearFragment_last d0 d1 hv0 hv1 hylt, hwhole]

/-! ### Daycount claim lemmas -/

theorem thirty360_same (d : Date) : yearfrac_30_360_us d d = .ok 0 := by
  unfold yearfrac_30_360_us
  rw [if_neg (dateLt_irrefl d)]
  dsimp only
  split_ifs <;> simp_all

theorem thirty360_isOk (d0 d1 : Date) (hlt : ¬ dateLt d1 d0) :
    ∃ q, yearfrac_30_360_us d0 d1 = .ok q := by
  unfold yearfrac_30_360_us
  rw [if_neg hlt]
  exact ⟨_, rfl⟩

theorem actActIsda_isOk (d0 d1 : Date) (hlt : ¬ dateLt d1 d0) :
    ∃ q, yearfrac_act_act_isda d0 d1 = .ok q := by
  unfold yearfrac_act_act_isda
  rw [if_neg hlt]
  split_ifs <;> exact ⟨_, rfl⟩

theorem yearfrac_isOk (d0 d1 : Date) (base : String)
    (hb : base = BASE_ACT_360 ∨ base = BASE_ACT_365 ∨ base = BASE_ACT_ACT ∨ base = BASE_30_360)
    (hlt : ¬ dateLt d1 d0) : ∃ q, yearfrac d0 d1 base = .ok q := by
  unfold yearfrac
  rw [if_neg hlt]
  dsimp only
  rcases hb with rfl | rfl | rfl | rfl
  · rw [if_pos rfl]; exact ⟨_, rfl⟩
  · rw [if_neg (by decide), if_pos rfl]; exact ⟨_, rfl⟩
  · rw [if_neg (by decide), if_neg (by decide), if_pos rfl]
    exact actActIsda_isOk d0 d1 hlt
  · rw [if_neg (by decide), if_neg (by decide), if_neg (by decide), if_pos rfl]
    exact thirty360_isOk d0 d1 hlt

theorem thirty360_example :
    yearfrac ⟨2024, 1, 31⟩ ⟨2024, 2, 29⟩ BASE_30_360 = .ok (1/12) := by
  norm_num [yearfrac, yearfrac_30_360_us, dateLt, BASE_30_360, BASE_ACT_360, BASE_ACT_365,
    BASE_ACT_ACT, isLastDayOfFebruary, isLastDayOfMonth, lastDayOfMonth, is_leap_year,
    daysBetween]
  simp +decide

/-- C5 counterexample: under 30/360-US the year fraction from 2024-01-31 to
2024-02-29 is not 0 (both days clamp to 30, but the month difference still
contributes 30/360). -/
theorem claim_C5_counterexample :
    yearfrac ⟨2024, 1, 31⟩ ⟨2024, 2, 29⟩ BASE_30_360 ≠ .ok 0 := by
  rw [thirty360_example]
  intro h
  have h2 := Except.ok.inj h
  norm_num at h2

/-- C5 (amended): year_fraction over 30/360-US applied to 2024-01-31 and
2024-02-29 returns 1/12 (= 30/360): d0's day 31 clamps to 30 and d1, the last
day of February with d0's adjusted day being 30, clamps to 30 as well, so the
day delta is 0 and only the one-month difference contributes. -/
theorem claim_C5 :
    yearfrac ⟨2024, 1, 31⟩ ⟨2024, 2, 29⟩ BASE_30_360 = .ok (1/12) :=
  thirty360_example

/-- C8: for each of the four canonical conventions, `yearfrac` fails with
InvalidDateOrder exactly when d1 < d0, and returns 0 whenever d0 = d1. -/
theorem claim_C8 (d0 d1 : Date) (base : String)
    (hb : base = BASE_ACT_360 ∨ base = BASE_ACT_365 ∨ base = BASE_ACT_ACT ∨ base = BASE_30_360) :
    (yearfrac d0 d1 base = .error .invalidDateOrder ↔ dateLt d1 d0) ∧
    (d0 = d1 → yearfrac d0 d1 base = .ok 0) := by
  constructor
  · constructor
    · intro h
      by_cases hlt : dateLt d1 d0
      · exact hlt
      · obtain ⟨q, hq⟩ := yearfrac_isOk d0 d1 base hb hlt
        rw [hq] at h
        exact absurd h (by simp)
    · intro hlt
      unfold yearfrac
      rw [if_pos hlt]
  · intro heq
    subst heq
    have hirr := dateLt_irrefl d0
    unfold yearfrac
    rw [if_neg hirr]
    dsimp only
    rcases hb with rfl | rfl | rfl | rfl
    · rw [if_pos rfl]
      unfold daysBetween
      norm_num
    · rw [if_neg (by decide), if_pos rfl]
      unfold daysBetween
      norm_num
    · rw [if_neg (by decide), if_neg (by decide), if_pos rfl]
      unfold yearfrac_act_act_isda
      rw [if_neg hirr, if_pos rfl]
    · rw [if_neg (by decide), if_neg (by decide), if_neg (by decide), if_pos rfl]
      exact thirty360_same d0

/-- C8 witness: concrete instances of both halves (ACT/365 at equal dates,
and the InvalidDateOrder iff at an out-of-order pair under 30/360). -/
theorem claim_C8_witness :
    yearfrac ⟨2024, 5, 7⟩ ⟨2024, 5, 7⟩ BASE_ACT_365 = .ok 0 ∧
    yearfrac ⟨2024, 5, 7⟩ ⟨2024, 5, 6⟩ BASE_30_360 = .error .invalidDateOrder := by
  constructor
  · exact (claim_C8 ⟨2024, 5, 7⟩ ⟨2024, 5, 7⟩ BASE_ACT_365 (by simp)).2 rfl
  · exact (claim_C8 ⟨2024, 5, 7⟩ ⟨2024, 5, 6⟩ BASE_30_360 (by simp)).1.mpr (by decide)

/-- C7: the code's ACT/ACT-ISDA equals the spec-side per-calendar-year
decomposition (each year fragment divided by that year's day count), and each
whole intermediate calendar year contributes exactly 1. -/
theorem claim_C7 (d0 d1 : Date) (hv0 : d0.Valid) (hv1 : d1.Valid)
    (hle : ¬ dateLt d1 d0) :
    yearfrac d0 d1 BASE_ACT_ACT = .ok (actActIsdaSpec d0 d1) ∧
    (∀ y, d0.year < y → y < d1.year → yearFragment d0 d1 y = 1) := by
  refine ⟨?_, fun y hy1 hy2 => yearFragment_whole d0 d1 hv0 hv1 hy1 hy2⟩
  unfold yearfrac
  rw [if_neg hle]
  dsimp only
  rw [if_neg (by decide), if_neg (by decide), if_pos rfl]
  exact actActIsda_eq_spec d0 d1 hv0 hv1 hle

/-- C7 witness: the spec's leap-boundary example 2023-12-01 → 2024-03-01
evaluates to 31/365 + 60/366. -/
theorem claim_C7_witness :
    Date.Valid ⟨2023, 12, 1⟩ ∧ Date.Valid ⟨2024, 3, 1⟩ ∧
    ¬ dateLt ⟨2024, 3, 1⟩ ⟨2023, 12, 1⟩ ∧
    yearfrac ⟨2023, 12, 1⟩ ⟨2024, 3, 1⟩ BASE_ACT_ACT = .ok (31/365 + 60/366) := by
  refine ⟨by decide, by decide, by decide, ?_⟩
  have h := (claim_C7 ⟨2023, 12, 1⟩ ⟨2024, 3, 1⟩ (by decide) (by decide) (by decide)).1
  rw [h]
  have hs : actActIsdaSpec ⟨2023, 12, 1⟩ ⟨2024, 3, 1⟩ = 31/365 + 60/366 := by
    rw [actActIsdaSpec, show Finset.Icc (2023:ℕ) 2024 = {2023, 2024} from by decide,
      Finset.sum_insert (by decide), Finset.sum_singleton]
    norm_num [yearFragment, yearStart, daysBetween, dayNumber, dayOfYear,
      daysBeforeMonth, lastDayOfMonth, is_leap_year, leapCount, daysInYear]
  rw [hs]

/-! ### Interpolation and piecewise-evaluation lemmas -/

theorem interp_linear_left (x0 x1 y0 y1 : ℚ) (h : x1 ≠ x0) :
    interp_linear x0 x0 x1 y0 y1 = y0 := by
  unfold interp_linear
  rw [if_neg h]
  ring

theorem interp_linear_right (x0 x1 y0 y1 : ℚ) :
    interp_linear x1 x0 x1 y0 y1 = y1 := by
  unfold interp_linear
  split_ifs with h
  · rfl
  · have h2 : x1 - x0 ≠ 0 := sub_ne_zero.mpr h
    field_simp

theorem interp_linear_strictAnti (x0 x1 y0 y1 : ℚ) (hx : x0 < x1) (hy : y1 < y0) :
    StrictAnti (fun t => interp_linear t x0 x1 y0 y1) := by
  intro s u hsu
  simp only [interp_linear]
  rw [if_neg (ne_of_gt hx), if_neg (ne_of_gt hx)]
  have hd : (0:ℚ) < x1 - x0 := by linarith
  have hdiv : (s - x0) / (x1 - x0) < (u - x0) / (x1 - x0) := by
    apply div_lt_div_of_pos_right _ hd
    linarith
  have h1 := mul_lt_mul_of_neg_right hdiv (show y1 - y0 < 0 by linarith)
  linarith

theorem pwEval_first (x0 y0 x1 y1 : ℚ) (l : List (ℚ × ℚ)) (t : ℚ) (h : t ≤ x1) :
    pwEval x0 y0 ((x1, y1) :: l) t = interp_linear t x0 x1 y0 y1 := by
  cases l with
  | nil => rfl
  | cons q ps => exact if_pos h

theorem pwEval_step (x0 y0 x1 y1 : ℚ) (q : ℚ × ℚ) (ps : List (ℚ × ℚ)) (t : ℚ)
    (h : ¬ t ≤ x1) :
    pwEval x0 y0 ((x1, y1) :: q :: ps) t = pwEval x1 y1 (q :: ps) t := if_neg h

theorem pwEval_base (x0 y0 : ℚ) (l : List (ℚ × ℚ))
    (hc : List.Chain' (fun a b : ℚ × ℚ => a.1 < b.1) ((x0, y0) :: l)) :
    pwEval x0 y0 l x0 = y0 := by
  cases l with
  | nil => rfl
  | cons p ps =>
    obtain ⟨x1, y1⟩ := p
    have hx : x0 < x1 := (List.chain'_cons.mp hc).1
    cases ps with
    | nil => exact interp_linear_left x0 x1 y0 y1 (ne_of_gt hx)
    | cons q qs =>
      rw [pwEval_first x0 y0 x1 y1 (q :: qs) x0 (le_of_lt hx)]
      exact interp_linear_left x0 x1 y0 y1 (ne_of_gt hx)

theorem pwEval_strictAnti (x0 y0 : ℚ) (l : List (ℚ × ℚ)) (hne : l ≠ [])
    (hc : List.Chain' (fun a b : ℚ × ℚ => a.1 < b.1 ∧ b.2 < a.2) ((x0, y0) :: l)) :
    StrictAnti (pwEval x0 y0 l) := by
  induction l generalizing x0 y0 with
  | nil => exact absurd rfl hne
  | cons p ps ih =>
    obtain ⟨x1, y1⟩ := p
    have hh : x0 < x1 ∧ y1 < y0 := (List.chain'_cons.mp hc).1
    have htail : List.Chain' (fun a b : ℚ × ℚ => a.1 < b.1 ∧ b.2 < a.2) ((x1, y1) :: ps) :=
      (List.chain'_cons.mp hc).2
    cases ps with
    | nil =>
      intro s u hsu
      show interp_linear u x0 x1 y0 y1 < interp_linear s x0 x1 y0 y1
      exact interp_linear_strictAnti x0 x1 y0 y1 hh.1 hh.2 hsu
    | cons q qs =>
      have IH : StrictAnti (pwEval x1 y1 (q :: qs)) := ih x1 y1 (by simp) htail
      have hb : pwEval x1 y1 (q :: qs) x1 = y1 :=
        pwEval_base x1 y1 (q :: qs) (htail.imp (fun a b h => h.1))
      intro s u hsu
      by_cases hs : s ≤ x1 <;> by_cases hu : u ≤ x1
      · rw [pwEval_first x0 y0 x1 y1 (q :: qs) s hs, pwEval_first x0 y0 x1 y1 (q :: qs) u hu]
        exact interp_linear_strictAnti x0 x1 y0 y1 hh.1 hh.2 hsu
      · rw [pwEval_first x0 y0 x1 y1 (q :: qs) s hs, pwEval_step x0 y0 x1 y1 q qs u hu]
        have h1 : pwEval x1 y1 (q :: qs) u < pwEval x1 y1 (q :: qs) x1 := IH (lt_of_not_le hu)
        rw [hb] at h1
        have h2 : interp_linear x1 x0 x1 y0 y1 ≤ interp_linear s x0 x1 y0 y1 :=
          (interp_linear_strictAnti x0 x1 y0 y1 hh.1 hh.2).antitone hs
        rw [interp_linear_right x0 x1 y0 y1] at h2
        linarith
      · exact absurd (le_of_lt (lt_of_lt_of_le hsu hu)) hs
      · rw [pwEval_step x0 y0 x1 y1 q qs s hs, pwEval_step x0 y0 x1 y1 q qs u hu]
        exact IH hsu

theorem getD_eq_get {α : Type} (l : List α) (d : α) {n : ℕ} (h : n < l.length) :
    l.getD n d = l.get ⟨n, h⟩ := by
  rw [List.getD_eq_get?, List.get?_eq_get h]
  rfl

theorem chain_fst_getD_lt (l : List (ℚ × ℚ))
    (hc : List.Chain' (fun a b : ℚ × ℚ => a.1 < b.1) l) {i j : ℕ} (hij : i < j)
    (hj : j < l.length) : (l.getD i (0, 0)).1 < (l.getD j (0, 0)).1 := by
  haveI : IsTrans (ℚ × ℚ) (fun a b : ℚ × ℚ => a.1 < b.1) :=
    ⟨fun _ _ _ h1 h2 => lt_trans h1 h2⟩
  have hpw := List.chain'_iff_pairwise.mp hc
  rw [getD_eq_get l (0, 0) (by omega), getD_eq_get l (0, 0) hj]
  exact (List.pairwise_iff_get.mp hpw) ⟨i, by omega⟩ ⟨j, hj⟩ hij

theorem chain_rat_getD_lt (l : List ℚ) (hc : List.Chain' (· < ·) l) {i j : ℕ} (hij : i < j)
    (hj : j < l.length) : l.getD i 0 < l.getD j 0 := by
  have hpw := List.chain'_iff_pairwise.mp hc
  rw [getD_eq_get l 0 (by omega), getD_eq_get l 0 hj]
  exact (List.pairwise_iff_get.mp hpw) ⟨i, by omega⟩ ⟨j, hj⟩ hij

theorem sorted_trichotomy (t : ℚ) : ∀ (xs : List ℚ), List.Chain' (· < ·) xs → xs ≠ [] →
    t ≤ xs.getD 0 0 ∨
    (∃ i, i + 1 < xs.length ∧ xs.getD i 0 < t ∧ t ≤ xs.getD (i + 1) 0) ∨
    xs.getD (xs.length - 1) 0 < t := by
  intro xs
  induction xs with
  | nil => intro _ hne; exact absurd rfl hne
  | cons a rest ih =>
    intro hc _
    by_cases ht : t ≤ a
    · exact Or.inl ht
    · cases rest with
      | nil => exact Or.inr (Or.inr (lt_of_not_le ht))
      | cons b rs =>
        rcases ih hc.tail (by simp) with h | ⟨i, hi, hl, hr⟩ | h
        · refine Or.inr (Or.inl ⟨0, by simp, lt_of_not_le ht, ?_⟩)
          simpa using h
        · refine Or.inr (Or.inl ⟨i + 1, by simp at hi ⊢; omega, ?_, ?_⟩)
          · rw [List.getD_cons_succ]; exact hl
          · rw [List.getD_cons_succ]; exact hr
        · refine Or.inr (Or.inr ?_)
          have hlen : (a :: b :: rs).length - 1 = ((b :: rs).length - 1) + 1 := by
            simp
          rw [hlen, List.getD_cons_succ]
          exact h

theorem bisectLeft_eq (t : ℚ) : ∀ (xs : List ℚ) (i : ℕ), List.Chain' (· < ·) xs →
    i + 1 < xs.length → xs.getD i 0 < t → t ≤ xs.getD (i + 1) 0 →
    bisectLeft xs t = i + 1 := by
  intro xs
  induction xs with
  | nil => intro i _ hi _ _; simp at hi
  | cons a rest ih =>
    intro i hc hi h1 h2
    have hlc : (a :: rest).length = rest.length + 1 := rfl
    cases i with
    | zero =>
      have ha : a < t := by simpa using h1
      have hrest0 : t ≤ rest.getD 0 0 := by simpa using h2
      unfold bisectLeft
      rw [List.countP_cons_of_pos _ _ (by simpa using ha)]
      have hz : rest.countP (fun x => decide (x < t)) = 0 := by
        rw [List.countP_eq_zero]
        intro b hb
        simp only [decide_eq_true_eq]
        obtain ⟨⟨j, hj⟩, hget⟩ := List.mem_iff_get.mp hb
        rcases Nat.eq_zero_or_pos j with hj0 | hjpos
        · subst hj0
          rw [← hget, ← getD_eq_get rest 0 hj]
          linarith
        · have hlt := chain_rat_getD_lt rest hc.tail hjpos hj
          rw [getD_eq_get rest 0 hj, hget] at hlt
          have h0 : t ≤ rest.getD 0 0 := hrest0
          rw [getD_eq_get rest 0 (by omega)] at h0
          linarith
      omega
    | succ k =>
      have hlen : k + 1 < rest.length := by omega
      have h1r : rest.getD k 0 < t := by simpa using h1
      have h2r : t ≤ rest.getD (k + 1) 0 := by simpa using h2
      have ha : a < t := by
        have hlt := chain_rat_getD_lt (a :: rest) hc (show 0 < k + 1 by omega) (by omega)
        simp only [List.getD_cons_zero, List.getD_cons_succ] at hlt
        linarith
      have hr := ih k hc.tail hlen h1r h2r
      unfold bisectLeft at hr ⊢
      rw [List.countP_cons_of_pos _ _ (by simpa using ha)]
      omega

theorem pwEval_segment (t : ℚ) : ∀ (l : List (ℚ × ℚ)) (x0 y0 : ℚ) (i : ℕ),
    List.Chain' (fun a b : ℚ × ℚ => a.1 < b.1) ((x0, y0) :: l) →
    i + 1 < l.length → (l.getD i (0, 0)).1 < t → t ≤ (l.getD (i + 1) (0, 0)).1 →
    pwEval x0 y0 l t = interp_linear t (l.getD i (0, 0)).1 (l.getD (i + 1) (0, 0)).1
      (l.getD i (0, 0)).2 (l.getD (i + 1) (0, 0)).2 := by
  intro l
  induction l with
  | nil => intro x0 y0 i _ hi _ _; simp at hi
  | cons p ps ih =>
    intro x0 y0 i hc hi h1 h2
    have hlc : (p :: ps).length = ps.length + 1 := rfl
    obtain ⟨x1, y1⟩ := p
    cases i with
    | zero =>
      have hx1 : x1 < t := by simpa using h1
      cases ps with
      | nil => simp at hi
      | cons q qs =>
        rw [pwEval_step x0 y0 x1 y1 q qs t (not_le.mpr hx1)]
        have h2q : t ≤ q.1 := by simpa using h2
        rw [List.getD_cons_zero, List.getD_cons_succ, List.getD_cons_zero]
        obtain ⟨xq, yq⟩ := q
        exact pwEval_first x1 y1 xq yq qs t h2q
    | succ k =>
      have hlen : k + 1 < ps.length := by omega
      have h1r : (ps.getD k (0, 0)).1 < t := by simpa using h1
      have h2r : t ≤ (ps.getD (k + 1) (0, 0)).1 := by simpa using h2
      have hx1 : x1 < t := by
        have hlc2 : ((x1, y1) :: ps).length = ps.length + 1 := rfl
        have hlt := chain_fst_getD_lt ((x1, y1) :: ps) hc.tail (show 0 < k + 1 by omega)
          (show k + 1 < ((x1, y1) :: ps).length by omega)
        simp only [List.getD_cons_zero, List.getD_cons_succ] at hlt
        linarith
      cases ps with
      | nil => simp at hlen
      | cons q qs =>
        rw [pwEval_step x0 y0 x1 y1 q qs t (not_le.mpr hx1), List.getD_cons_succ,
          List.getD_cons_succ]
        exact ih x1 y1 k hc.tail hlen h1r h2r

theorem pwEval_tail (t : ℚ) : ∀ (l : List (ℚ × ℚ)) (x0 y0 : ℚ),
    List.Chain' (fun a b : ℚ × ℚ => a.1 < b.1) ((x0, y0) :: l) →
    2 ≤ l.length → (l.getD (l.length - 2) (0, 0)).1 < t →
    pwEval x0 y0 l t = interp_linear t (l.getD (l.length - 2) (0, 0)).1
      (l.getD (l.length - 1) (0, 0)).1 (l.getD (l.length - 2) (0, 0)).2
      (l.getD (l.length - 1) (0, 0)).2 := by
  intro l
  induction l with
  | nil => intro x0 y0 _ hl _; simp at hl
  | cons p ps ih =>
    intro x0 y0 hc hl hgt
    obtain ⟨x1, y1⟩ := p
    cases ps with
    | nil => simp at hl
    | cons q qs =>
      cases qs with
      | nil =>
        have hidx0 : ([(x1, y1), q] : List (ℚ × ℚ)).length - 2 = 0 := rfl
        have hidx1 : ([(x1, y1), q] : List (ℚ × ℚ)).length - 1 = 1 := rfl
        rw [hidx0, List.getD_cons_zero] at hgt
        rw [hidx0, hidx1, List.getD_cons_zero, List.getD_cons_succ, List.getD_cons_zero]
        rw [pwEval_step x0 y0 x1 y1 q [] t (not_le.mpr hgt)]
        obtain ⟨xq, yq⟩ := q
        rfl
      | cons r rs =>
        have hL : (q :: r :: rs).length = rs.length + 2 := rfl
        have hlen2 : 2 ≤ (q :: r :: rs).length := by omega
        have hidx : ((x1, y1) :: q :: r :: rs).length - 2 = ((q :: r :: rs).length - 2) + 1 := by
          have : ((x1, y1) :: q :: r :: rs).length = (q :: r :: rs).length + 1 := rfl
          omega
        have hidx1 : ((x1, y1) :: q :: r :: rs).length - 1 = ((q :: r :: rs).length - 1) + 1 := by
          have : ((x1, y1) :: q :: r :: rs).length = (q :: r :: rs).length + 1 := rfl
          omega
        rw [hidx, List.getD_cons_succ] at hgt
        have hx1 : x1 < t := by
          have hjlt : (0:ℕ) < ((q :: r :: rs).length - 2) + 1 := by omega
          have hlt := chain_fst_getD_lt ((x1, y1) :: q :: r :: rs) hc.tail hjlt
            (show ((q :: r :: rs).length - 2) + 1 < ((x1, y1) :: q :: r :: rs).length by
              have : ((x1, y1) :: q :: r :: rs).length = (q :: r :: rs).length + 1 := rfl
              omega)
          simp only [List.getD_cons_zero] at hlt
          rw [List.getD_cons_succ] at hlt
          linarith
        rw [pwEval_step x0 y0 x1 y1 q (r :: rs) t (not_le.mpr hx1), hidx, hidx1,
          List.getD_cons_succ, List.getD_cons_succ]
        exact ih x1 y1 hc.tail hlen2 hgt

/-! ### ForwardCurve access and branch lemmas -/

theorem year_fracs_length (c : ForwardCurve) : c.year_fracs.length = c.points.length :=
  List.length_map _ _

theorem pillar_ln_dfs_length (c : ForwardCurve) :
    c.pillar_ln_dfs.length = c.points.length :=
  List.length_map _ _

theorem pillars_length (c : ForwardCurve) : c.pillars.length = c.points.length :=
  List.length_map _ _

theorem year_fracs_getD (c : ForwardCurve) {i : ℕ} (h : i < c.points.length) :
    c.year_fracs.getD i 0 = (c.points.get ⟨i, h⟩).year_frac := by
  rw [getD_eq_get _ _ (by rw [year_fracs_length]; exact h)]
  unfold ForwardCurve.year_fracs
  rw [List.get_map]

theorem pillar_ln_dfs_getD (c : ForwardCurve) {i : ℕ} (h : i < c.points.length) :
    c.pillar_ln_dfs.getD i 0 = -(c.points.get ⟨i, h⟩).rate * (c.points.get ⟨i, h⟩).year_frac := by
  rw [getD_eq_get _ _ (by rw [pillar_ln_dfs_length]; exact h)]
  unfold ForwardCurve.pillar_ln_dfs
  rw [List.get_map]

theorem pillars_getD (c : ForwardCurve) {i : ℕ} (h : i < c.points.length) :
    c.pillars.getD i (0, 0) =
      ((c.points.get ⟨i, h⟩).year_frac,
        -(c.points.get ⟨i, h⟩).rate * (c.points.get ⟨i, h⟩).year_frac) := by
  rw [getD_eq_get _ _ (by rw [pillars_length]; exact h)]
  unfold ForwardCurve.pillars
  rw [List.get_map]

theorem year_fracs_chain (c : ForwardCurve) (hs : c.Sorted) :
    List.Chain' (· < ·) c.year_fracs := by
  unfold ForwardCurve.year_fracs
  rw [List.chain'_map]
  exact hs

theorem pillars_chain (c : ForwardCurve) (hs : c.Sorted) :
    List.Chain' (fun a b : ℚ × ℚ => a.1 < b.1) c.pillars := by
  unfold ForwardCurve.pillars
  rw [List.chain'_map]
  exact hs

theorem lnDf_first (c : ForwardCurve) (t : ℚ) (ht : t ≤ c.year_fracs.getD 0 0) :
    c.lnDf t = interp_linear t 0 (c.year_fracs.getD 0 0) 0 (c.pillar_ln_dfs.getD 0 0) := by
  simp only [ForwardCurve.lnDf]
  by_cases hl : c.year_fracs.length = 1
  · rw [if_pos hl]
  · rw [if_neg hl, if_pos ht]

theorem lnDf_single (c : ForwardCurve) (t : ℚ) (hl : c.points.length = 1) :
    c.lnDf t = interp_linear t 0 (c.year_fracs.getD 0 0) 0 (c.pillar_ln_dfs.getD 0 0) := by
  simp only [ForwardCurve.lnDf]
  rw [if_pos (by rw [year_fracs_length]; exact hl)]

theorem lnDf_tail (c : ForwardCurve) (t : ℚ) (hs : c.Sorted) (h2 : 2 ≤ c.points.length)
    (ht : c.year_fracs.getD (c.points.length - 1) 0 ≤ t) :
    c.lnDf t = interp_linear t (c.year_fracs.getD (c.points.length - 2) 0)
      (c.year_fracs.getD (c.points.length - 1) 0)
      (c.pillar_ln_dfs.getD (c.points.length - 2) 0)
      (c.pillar_ln_dfs.getD (c.points.length - 1) 0) := by
  have hxlen := year_fracs_length c
  have hylen := pillar_ln_dfs_length c
  have hx0 : c.year_fracs.getD 0 0 < t := by
    have hlt := chain_rat_getD_lt c.year_fracs (year_fracs_chain c hs)
      (show 0 < c.points.length - 1 by omega) (by omega)
    linarith
  simp only [ForwardCurve.lnDf]
  rw [if_neg (by omega), if_neg (not_le.mpr hx0), if_pos (by rw [hxlen]; exact ht),
    hxlen, hylen]

theorem lnDf_seg (c : ForwardCurve) (t : ℚ) (hs : c.Sorted) {i : ℕ}
    (hi : i + 1 < c.points.length) (h1 : c.year_fracs.getD i 0 < t)
    (h2 : t ≤ c.year_fracs.getD (i + 1) 0) :
    c.lnDf t = interp_linear t (c.year_fracs.getD i 0) (c.year_fracs.getD (i + 1) 0)
      (c.pillar_ln_dfs.getD i 0) (c.pillar_ln_dfs.getD (i + 1) 0) := by
  have hxlen := year_fracs_length c
  have hylen := pillar_ln_dfs_length c
  have hchain := year_fracs_chain c hs
  have hx0 : c.year_fracs.getD 0 0 < t := by
    rcases Nat.eq_zero_or_pos i with hi0 | hipos
    · rw [← hi0]; exact h1
    · have hlt := chain_rat_getD_lt c.year_fracs hchain hipos (by omega)
      linarith
  simp only [ForwardCurve.lnDf]
  rw [if_neg (by omega), if_neg (not_le.mpr hx0)]
  by_cases hlast : c.year_fracs.getD (c.year_fracs.length - 1) 0 ≤ t
  · rw [if_pos hlast]
    have hieq : i + 1 = c.points.length - 1 := by
      by_contra hne2
      have hlt := chain_rat_getD_lt c.year_fracs hchain
        (show i + 1 < c.points.length - 1 by omega) (by omega)
      rw [hxlen] at hlast
      linarith
    rw [hxlen, hylen, show c.points.length - 2 = i by omega,
      show c.points.length - 1 = i + 1 by omega]
  · rw [if_neg hlast]
    have hj : bisectLeft c.year_fracs t = i + 1 :=
      bisectLeft_eq t c.year_fracs i hchain (by omega) h1 h2
    rw [hj, show i + 1 - 1 = i by omega]

theorem lnDf_eq_pwEval (c : ForwardCurve) (hs : c.Sorted) (hne : c.points ≠ [])
    (hpos : 0 < c.year_fracs.getD 0 0) (t : ℚ) :
    c.lnDf t = pwEval 0 0 c.pillars t := by
  have hxlen := year_fracs_length c
  have hplen := pillars_length c
  have hchain_xs := year_fracs_chain c hs
  have hchain_p := pillars_chain c hs
  have hnp : c.points.length ≠ 0 := fun h => hne (List.length_eq_zero.mp h)
  have efst : ∀ {j : ℕ}, j < c.points.length →
      (c.pillars.getD j (0, 0)).1 = c.year_fracs.getD j 0 := by
    intro j h
    rw [pillars_getD c h, year_fracs_getD c h]
  have esnd : ∀ {j : ℕ}, j < c.points.length →
      (c.pillars.getD j (0, 0)).2 = c.pillar_ln_dfs.getD j 0 := by
    intro j h
    rw [pillars_getD c h, pillar_ln_dfs_getD c h]
  have hchain0 : List.Chain' (fun a b : ℚ × ℚ => a.1 < b.1) ((0, 0) :: c.pillars) := by
    cases hp : c.pillars with
    | nil => simp
    | cons p ps =>
      rw [List.chain'_cons]
      refine ⟨?_, by rw [← hp]; exact hchain_p⟩
      have h0 : (c.pillars.getD 0 (0, 0)).1 = c.year_fracs.getD 0 0 := efst (by omega)
      rw [hp, List.getD_cons_zero] at h0
      rw [h0]
      exact hpos
  rcases sorted_trichotomy t c.year_fracs hchain_xs
      (fun h => hnp (by rw [← hxlen, h]; rfl)) with h | ⟨i, hi, h1, h2⟩ | h
  · rw [lnDf_first c t h]
    cases hp : c.pillars with
    | nil => exact absurd (by rw [← hplen, hp]; rfl) hnp
    | cons p ps =>
      obtain ⟨px, py⟩ := p
      have h0 : c.pillars.getD 0 (0, 0) = (px, py) := by rw [hp, List.getD_cons_zero]
      have hx : px = c.year_fracs.getD 0 0 := by
        have := efst (show 0 < c.points.length by omega)
        rw [h0] at this
        exact this
      have hy : py = c.pillar_ln_dfs.getD 0 0 := by
        have := esnd (show 0 < c.points.length by omega)
        rw [h0] at this
        exact this
      rw [pwEval_first 0 0 px py ps t (by rw [hx]; exact h), hx, hy]
  · have hi' : i + 1 < c.points.length := by rw [← hxlen]; exact hi
    rw [lnDf_seg c t hs hi' h1 h2]
    have hilen : i < c.points.length := by omega
    have hi1len : i + 1 < c.points.length := hi'
    rw [pwEval_segment t c.pillars 0 0 i hchain0 (by omega)
      (by rw [efst hilen]; exact h1) (by rw [efst hi1len]; exact h2),
      efst hilen, efst hi1len, esnd hilen, esnd hi1len]
  · rw [hxlen] at h
    by_cases hl1 : c.points.length = 1
    · rw [lnDf_single c t hl1]
      cases hp : c.pillars with
      | nil => exact absurd (by rw [← hplen, hp]; rfl) hnp
      | cons p ps =>
        have hps : ps = [] := by
          have : c.pillars.length = 1 := by rw [hplen, hl1]
          rw [hp] at this
          simpa using this

        subst hps
        obtain ⟨px, py⟩ := p
        have h0 : c.pillars.getD 0 (0, 0) = (px, py) := by rw [hp, List.getD_cons_zero]
        have hx : px = c.year_fracs.getD 0 0 := by
          have := efst (show 0 < c.points.length by omega)
          rw [h0] at this
          exact this
        have hy : py = c.pillar_ln_dfs.getD 0 0 := by
          have := esnd (show 0 < c.points.length by omega)
          rw [h0] at this
          exact this
        rw [show pwEval 0 0 [(px, py)] t = interp_linear t 0 px 0 py from rfl, hx, hy]
    · have h2n : 2 ≤ c.points.length := by omega
      have hn2 : c.points.length - 2 < c.points.length := by omega
      have hn1 : c.points.length - 1 < c.points.length := by omega
      rw [lnDf_tail c t hs h2n (le_of_lt h)]
      have hplen2 : c.pillars.length - 2 = c.points.length - 2 := by rw [hplen]
      have hplen1 : c.pillars.length - 1 = c.points.length - 1 := by rw [hplen]
      rw [pwEval_tail t c.pillars 0 0 hchain0 (by omega)
        (by rw [hplen2, efst hn2]
            have hlt := chain_rat_getD_lt c.year_fracs hchain_xs
              (show c.points.length - 2 < c.points.length - 1 by omega) (by omega)
            linarith),
        hplen2, hplen1, efst hn2, efst hn1, esnd hn2, esnd hn1]

/-! ### Curve claim theorems -/

/-- C1: for a curve with at least two pillars and `t` strictly between the
adjacent pillar year-fractions at positions `i` and `i+1`, `discount_factor t`
is the exponential of the linear interpolation in ln DF between those pillars,
with `ln DF_i = -rate_i * year_frac_i`. -/
theorem claim_C1 (c : ForwardCurve) (i : ℕ) (t : ℚ) (hs : c.Sorted)
    (hi : i + 1 < c.points.length)
    (hnn : 0 ≤ (c.points.get ⟨i, by omega⟩).year_frac)
    (h1 : (c.points.get ⟨i, by omega⟩).year_frac < t)
    (h2 : t < (c.points.get ⟨i + 1, hi⟩).year_frac) :
    c.discount_factor t = Real.exp
      ((interp_linear t (c.points.get ⟨i, by omega⟩).year_frac
        (c.points.get ⟨i + 1, hi⟩).year_frac
        (-(c.points.get ⟨i, by omega⟩).rate * (c.points.get ⟨i, by omega⟩).year_frac)
        (-(c.points.get ⟨i + 1, hi⟩).rate * (c.points.get ⟨i + 1, hi⟩).year_frac) : ℚ) : ℝ) := by
  have hilen : i < c.points.length := by omega
  have ht0 : (0:ℚ) < t := lt_of_le_of_lt hnn h1
  have hseg := lnDf_seg c t hs hi
    (by rw [year_fracs_getD c hilen]; exact h1)
    (by rw [year_fracs_getD c hi]; exact le_of_lt h2)
  rw [year_fracs_getD c hilen, year_fracs_getD c hi, pillar_ln_dfs_getD c hilen,
    pillar_ln_dfs_getD c hi] at hseg
  unfold ForwardCurve.discount_factor
  rw [if_neg (not_le.mpr ht0), hseg]

/-- C1 witness: the spec's two-pillar curve (1y, 0.02), (2y, 0.03) at t = 1.5,
where the interpolated ln DF is exactly -0.04. -/
theorem claim_C1_witness :
    exampleCurve.discount_factor (3/2) =
      Real.exp ((interp_linear (3/2) 1 2 (-(2/100) * 1) (-(3/100) * 2) : ℚ) : ℝ) ∧
    (interp_linear (3/2) 1 2 (-(2/100) * 1) (-(3/100) * 2) : ℚ) = -(4/100) := by
  constructor
  · have h := claim_C1 exampleCurve 0 (3/2)
      (by norm_num [ForwardCurve.Sorted, exampleCurve]) (by decide)
      (by norm_num [exampleCurve]) (by norm_num [exampleCurve]) (by norm_num [exampleCurve])
    simpa [exampleCurve] using h
  · norm_num [interp_linear]

theorem interp_slope_form (a b ya yb t : ℚ) (hab : a < b) :
    interp_linear t a b ya yb = yb + (t - b) * ((yb - ya) / (b - a)) := by
  unfold interp_linear
  rw [if_neg (ne_of_gt hab)]
  have hd : b - a ≠ 0 := sub_ne_zero.mpr (ne_of_gt hab)
  field_simp
  ring

/-- C2: for a curve with at least two pillars and `t` at or beyond the last
pillar, `discount_factor t` is the exponential of the linear extrapolation of
ln DF along the final pillar segment, i.e. the projection of the last
segment's ln DF slope from the last pillar. -/
theorem claim_C2 (c : ForwardCurve) (t : ℚ) (hs : c.Sorted) (h2 : 2 ≤ c.points.length)
    (hnn : 0 ≤ (c.points.get ⟨0, by omega⟩).year_frac)
    (ht : (c.points.get ⟨c.points.length - 1, by omega⟩).year_frac ≤ t) :
    c.discount_factor t = Real.exp
      ((interp_linear t (c.points.get ⟨c.points.length - 2, by omega⟩).year_frac
        (c.points.get ⟨c.points.length - 1, by omega⟩).year_frac
        (-(c.points.get ⟨c.points.length - 2, by omega⟩).rate *
          (c.points.get ⟨c.points.length - 2, by omega⟩).year_frac)
        (-(c.points.get ⟨c.points.length - 1, by omega⟩).rate *
          (c.points.get ⟨c.points.length - 1, by omega⟩).year_frac) : ℚ) : ℝ) ∧
    interp_linear t (c.points.get ⟨c.points.length - 2, by omega⟩).year_frac
        (c.points.get ⟨c.points.length - 1, by omega⟩).year_frac
        (-(c.points.get ⟨c.points.length - 2, by omega⟩).rate *
          (c.points.get ⟨c.points.length - 2, by omega⟩).year_frac)
        (-(c.points.get ⟨c.points.length - 1, by omega⟩).rate *
          (c.points.get ⟨c.points.length - 1, by omega⟩).year_frac) =
      (-(c.points.get ⟨c.points.length - 1, by omega⟩).rate *
          (c.points.get ⟨c.points.length - 1, by omega⟩).year_frac) +
        (t - (c.points.get ⟨c.points.length - 1, by omega⟩).year_frac) *
          (((-(c.points.get ⟨c.points.length - 1, by omega⟩).rate *
              (c.points.get ⟨c.points.length - 1, by omega⟩).year_frac) -
            (-(c.points.get ⟨c.points.length - 2, by omega⟩).rate *
              (c.points.get ⟨c.points.length - 2, by omega⟩).year_frac)) /
          ((c.points.get ⟨c.points.length - 1, by omega⟩).year_frac -
            (c.points.get ⟨c.points.length - 2, by omega⟩).year_frac)) := by
  have hn2 : c.points.length - 2 < c.points.length := by omega
  have hn1 : c.points.length - 1 < c.points.length := by omega
  haveI : IsTrans CurvePoint (fun p q : CurvePoint => p.year_frac < q.year_frac) :=
    ⟨fun _ _ _ ha hb => lt_trans ha hb⟩
  have hpw := List.pairwise_iff_get.mp (List.chain'_iff_pairwise.mp hs)
  have hab : (c.points.get ⟨c.points.length - 2, hn2⟩).year_frac <
      (c.points.get ⟨c.points.length - 1, hn1⟩).year_frac :=
    hpw ⟨c.points.length - 2, hn2⟩ ⟨c.points.length - 1, hn1⟩ (by simp; omega)
  have h0n : (c.points.get ⟨0, by omega⟩).year_frac ≤
      (c.points.get ⟨c.points.length - 2, hn2⟩).year_frac := by
    rcases Nat.eq_zero_or_pos (c.points.length - 2) with hz | hp
    · simp only [hz]
      exact le_refl _
    · exact le_of_lt (hpw ⟨0, by omega⟩ ⟨c.points.length - 2, hn2⟩ (by simpa using hp))
  have ht0 : (0:ℚ) < t := by
    have := lt_of_le_of_lt (le_trans hnn h0n) hab
    linarith
  constructor
  · have htail := lnDf_tail c t hs h2 (by rw [year_fracs_getD c hn1]; exact ht)
    rw [year_fracs_getD c hn2, year_fracs_getD c hn1, pillar_ln_dfs_getD c hn2,
      pillar_ln_dfs_getD c hn1] at htail
    unfold ForwardCurve.discount_factor
    rw [if_neg (not_le.mpr ht0), htail]
  · exact interp_slope_form _ _ _ _ t hab

/-- C2 witness: on the two-pillar example curve, the extrapolated ln DF at
t = 3 is -0.10 (slope projection), which differs from the flat-zero-rate value
-0.03 * 3 = -0.09. -/
theorem claim_C2_witness :
    exampleCurve.discount_factor 3 =
      Real.exp ((interp_linear 3 1 2 (-(2/100) * 1) (-(3/100) * 2) : ℚ) : ℝ) ∧
    (interp_linear 3 1 2 (-(2/100) * 1) (-(3/100) * 2) : ℚ) = -(10/100) ∧
    (interp_linear 3 1 2 (-(2/100) * 1) (-(3/100) * 2) : ℚ) ≠ -(3/100) * 3 := by
  refine ⟨?_, by norm_num [interp_linear], by norm_num [interp_linear]⟩
  have h := claim_C2 exampleCurve 3
    (by norm_num [ForwardCurve.Sorted, exampleCurve]) (by decide)
    (by norm_num [exampleCurve]) (by norm_num [exampleCurve])
  have h1 := h.1
  simpa [exampleCurve] using h1

/-- C6 counterexample: a valid curve with all pillar rates positive whose
discount factor is not strictly decreasing: pillars (1, 0.10), (2, 0.01) give
ln DF pillars -0.10 and -0.02, so DF(2) > DF(1). -/
theorem claim_C6_counterexample :
    (∀ p ∈ humpCurve.points, 0 < p.rate) ∧ humpCurve.Sorted ∧
    (0:ℚ) < 1 ∧ (1:ℚ) < 2 ∧
    humpCurve.discount_factor 1 < humpCurve.discount_factor 2 := by
  refine ⟨by norm_num [humpCurve], by norm_num [ForwardCurve.Sorted, humpCurve],
    by norm_num, by norm_num, ?_⟩
  have e1 : humpCurve.lnDf 1 = -1/10 := by
    norm_num [ForwardCurve.lnDf, ForwardCurve.year_fracs, ForwardCurve.pillar_ln_dfs,
      humpCurve, interp_linear, bisectLeft]
  have e2 : humpCurve.lnDf 2 = -1/50 := by
    norm_num [ForwardCurve.lnDf, ForwardCurve.year_fracs, ForwardCurve.pillar_ln_dfs,
      humpCurve, interp_linear, bisectLeft]
  unfold ForwardCurve.discount_factor
  rw [if_neg (by norm_num), if_neg (by norm_num), e1, e2]
  rw [Real.exp_lt_exp]
  exact_mod_cast (by norm_num : (-1/10 : ℚ) < -1/50)

/-- C6 (amended): `discount_factor t = 1` for every `t ≤ 0`, and
`discount_factor` is strictly decreasing on `t > 0` provided the ln DF knots
`(0,0), (x_i, -r_i*x_i)` are strictly increasing in year-fraction and strictly
decreasing in ln DF (all pillar rates positive is not sufficient: see the
counterexample). -/
theorem claim_C6 (c : ForwardCurve) (hne : c.points ≠ [])
    (hc : List.Chain' (fun a b : ℚ × ℚ => a.1 < b.1 ∧ b.2 < a.2) ((0, 0) :: c.pillars)) :
    (∀ t : ℚ, t ≤ 0 → c.discount_factor t = 1) ∧
    (∀ s u : ℚ, 0 < s → s < u → c.discount_factor u < c.discount_factor s) := by
  constructor
  · intro t ht
    unfold ForwardCurve.discount_factor
    rw [if_pos ht]
  · intro s u hs0 hsu
    have hsort : c.Sorted := by
      have hfst : List.Chain' (fun a b : ℚ × ℚ => a.1 < b.1) c.pillars :=
        (hc.tail).imp (fun a b h => h.1)
      unfold ForwardCurve.pillars at hfst
      rw [List.chain'_map] at hfst
      exact hfst
    have hpne : c.pillars ≠ [] := by
      intro hnil
      have hlen := pillars_length c
      rw [hnil] at hlen
      simp at hlen
      exact hne (List.length_eq_zero.mp hlen.symm)
    have hpos : 0 < c.year_fracs.getD 0 0 := by
      cases hp : c.pillars with
      | nil => exact absurd hp hpne
      | cons p ps =>
        have hh : (0:ℚ) < p.1 := by
          have := (List.chain'_cons.mp (by rw [hp] at hc; exact hc)).1
          exact this.1
        have h0 : (c.pillars.getD 0 (0, 0)).1 = c.year_fracs.getD 0 0 := by
          have hlen : 0 < c.points.length := by
            rw [← pillars_length c, hp]
            simp
          rw [pillars_getD c hlen, year_fracs_getD c hlen]
        rw [hp, List.getD_cons_zero] at h0
        rw [← h0]
        exact hh
    have hanti := pwEval_strictAnti 0 0 c.pillars hpne hc
    have hlt : c.lnDf u < c.lnDf s := by
      rw [lnDf_eq_pwEval c hsort hne hpos u, lnDf_eq_pwEval c hsort hne hpos s]
      exact hanti hsu
    unfold ForwardCurve.discount_factor
    rw [if_neg (not_le.mpr hs0), if_neg (not_le.mpr (lt_trans hs0 hsu))]
    rw [Real.exp_lt_exp]
    exact_mod_cast hlt

/-- C6 witness: the two-pillar example curve satisfies the amended
hypotheses, its DF at t ≤ 0 is 1, and DF(2) < DF(1) < DF(1/2). -/
theorem claim_C6_witness :
    exampleCurve.points ≠ [] ∧
    List.Chain' (fun a b : ℚ × ℚ => a.1 < b.1 ∧ b.2 < a.2) ((0, 0) :: exampleCurve.pillars) ∧
    exampleCurve.discount_factor (-1) = 1 ∧
    exampleCurve.discount_factor 2 < exampleCurve.discount_factor 1 := by
  have hch : List.Chain' (fun a b : ℚ × ℚ => a.1 < b.1 ∧ b.2 < a.2)
      ((0, 0) :: exampleCurve.pillars) := by
    norm_num [exampleCurve, ForwardCurve.pillars]
  have h := claim_C6 exampleCurve (by decide) hch
  exact ⟨by decide, hch, h.1 (-1) (by norm_num), h.2 1 2 (by norm_num) (by norm_num)⟩

/-! ### Scenario-shock lemmas -/

theorem contains_iff_mem_str (l : List String) (a : String) : l.contains a = true ↔ a ∈ l :=
  List.elem_iff

theorem applyParallelShock_ok (base_set : ForwardCurveSet) (shock : ParallelShock)
    (apply_to : Option (List String)) (out : ForwardCurveSet)
    (h : applyParallelShock base_set shock apply_to = .ok out) :
    ∃ sel, normaliseApplyTo apply_to (availableIndexes base_set.points) = .ok sel ∧
      out.points = base_set.points.map (fun r =>
        if sel.contains r.IndexName then
          { r with FwdRate := r.FwdRate + shock.shift_decimal }
        else r) ∧
      out.analysis_date = base_set.analysis_date ∧ out.base = base_set.base ∧
      rebuildCurves out.points = .ok out.curves := by
  unfold applyParallelShock at h
  dsimp only at h
  cases hn : normaliseApplyTo apply_to (availableIndexes base_set.points) with
  | error e =>
    rw [hn] at h
    exact Except.noConfusion h
  | ok sel =>
    rw [hn] at h
    dsimp only at h
    cases hrb : rebuildCurves (base_set.points.map (fun r =>
        if sel.contains r.IndexName then
          { r with FwdRate := r.FwdRate + shock.shift_decimal }
        else r)) with
    | error e =>
      rw [hrb] at h
      exact Except.noConfusion h
    | ok cs =>
      rw [hrb] at h
      have heq := Except.ok.inj h
      refine ⟨sel, rfl, ?_, ?_, ?_, ?_⟩ <;> rw [← heq]
      exact hrb

theorem normaliseApplyTo_none (available : List String) :
    normaliseApplyTo none available = .ok available := rfl

theorem getD_map_row (df : List Row) (f : Row → Row) {i : ℕ} (h : i < df.length) :
    (df.map f).getD i dRow = f (df.getD i dRow) := by
  rw [getD_eq_get _ _ (by rw [List.length_map]; exact h), getD_eq_get _ _ h]
  exact List.get_map f

theorem rowIndex_mem_available (df : List Row) {i : ℕ} (h : i < df.length) :
    (df.getD i dRow).IndexName ∈ availableIndexes df := by
  unfold availableIndexes
  rw [List.mem_dedup, List.mem_map]
  exact ⟨df.getD i dRow, by rw [getD_eq_get df dRow h]; exact List.get_mem df i h, rfl⟩

/-- C3: with `apply_to = none` every row's rate is shifted by
`shift_bps/10000`; with an explicit `apply_to` resolving to `sel`, rows whose
index is in `sel` are shifted and all other rows are exactly unchanged.  (The
typed table carries the required columns by construction.) -/
theorem claim_C3 (base_set : ForwardCurveSet) (shock : ParallelShock) :
    (∀ out, applyParallelShock base_set shock none = .ok out →
      out.points.length = base_set.points.length ∧
      ∀ i, i < base_set.points.length →
        out.points.getD i dRow =
          { base_set.points.getD i dRow with
            FwdRate := (base_set.points.getD i dRow).FwdRate + shock.shift_bps / 10000 }) ∧
    (∀ l sel out,
      normaliseApplyTo (some l) (availableIndexes base_set.points) = .ok sel →
      applyParallelShock base_set shock (some l) = .ok out →
      out.points.length = base_set.points.length ∧
      ∀ i, i < base_set.points.length →
        out.points.getD i dRow =
          (if (base_set.points.getD i dRow).IndexName ∈ sel then
            { base_set.points.getD i dRow with
              FwdRate := (base_set.points.getD i dRow).FwdRate + shock.shift_bps / 10000 }
          else base_set.points.getD i dRow)) := by
  constructor
  · intro out h
    obtain ⟨sel, hn, hpts, _, _, _⟩ := applyParallelShock_ok base_set shock none out h
    rw [normaliseApplyTo_none] at hn
    have hsel : sel = availableIndexes base_set.points := (Except.ok.inj hn).symm
    subst hsel
    constructor
    · rw [hpts, List.length_map]
    · intro i hi
      have hmem := rowIndex_mem_available base_set.points hi
      rw [hpts, getD_map_row base_set.points _ hi]
      dsimp only
      rw [if_pos ((contains_iff_mem_str _ _).mpr hmem)]
      rfl
  · intro l sel out hn h
    obtain ⟨sel2, hn2, hpts, _, _, _⟩ := applyParallelShock_ok base_set shock (some l) out h
    rw [hn] at hn2
    have hsel : sel2 = sel := (Except.ok.inj hn2).symm
    rw [hsel] at hpts
    constructor
    · rw [hpts, List.length_map]
    · intro i hi
      rw [hpts, getD_map_row base_set.points _ hi]
      dsimp only
      by_cases hmem : (base_set.points.getD i dRow).IndexName ∈ sel
      · rw [if_pos ((contains_iff_mem_str _ _).mpr hmem), if_pos hmem]
        rfl
      · rw [if_neg (fun hc => hmem ((contains_iff_mem_str _ _).mp hc)), if_neg hmem]

/-- C3 witness: the +100bp shock on the example set shifts row 0 by 1/100
with `apply_to = none`, and with `apply_to = ["EUR"]` leaves the USD row
(row 2) exactly unchanged. -/
theorem claim_C3_witness :
    applyParallelShock exampleBaseSet upShock none = .ok exampleShockedSet ∧
    exampleShockedSet.points.getD 0 dRow =
      { exampleBaseSet.points.getD 0 dRow with
        FwdRate := (exampleBaseSet.points.getD 0 dRow).FwdRate + upShock.shift_bps / 10000 } ∧
    normaliseApplyTo (some ["EUR"]) (availableIndexes exampleBaseSet.points) = .ok ["EUR"] ∧
    applyParallelShock exampleBaseSet upShock (some ["EUR"]) = .ok exampleShockedSetEUR ∧
    exampleShockedSetEUR.points.getD 2 dRow = exampleBaseSet.points.getD 2 dRow := by
  have h1 : applyParallelShock exampleBaseSet upShock none = .ok exampleShockedSet := by
    norm_num +decide [applyParallelShock, availableIndexes, normaliseApplyTo, exampleBaseSet,
      exampleRows, rebuildCurves, rebuildCurvesAux, curve_from_long_df, mkForwardCurve,
      strictlyInc, stripStr, upperStr, ParallelShock.shift_decimal, upShock, exampleShockedSet,
      List.dedup, strLe, charListLe]
  have hn : normaliseApplyTo (some ["EUR"]) (availableIndexes exampleBaseSet.points) =
      .ok ["EUR"] := by decide
  have h2 : applyParallelShock exampleBaseSet upShock (some ["EUR"]) =
      .ok exampleShockedSetEUR := by
    norm_num +decide [applyParallelShock, availableIndexes, normaliseApplyTo, exampleBaseSet,
      exampleRows, rebuildCurves, rebuildCurvesAux, curve_from_long_df, mkForwardCurve,
      strictlyInc, stripStr, upperStr, ParallelShock.shift_decimal, upShock,
      exampleShockedSetEUR, List.dedup, strLe, charListLe]
  refine ⟨h1, ?_, hn, h2, ?_⟩
  · have hc := ((claim_C3 exampleBaseSet upShock).1 exampleShockedSet h1).2 0
      (by norm_num [exampleBaseSet, exampleRows])
    exact hc
  · have hc := ((claim_C3 exampleBaseSet upShock).2 ["EUR"] ["EUR"] exampleShockedSetEUR
      hn h2).2 2 (by norm_num [exampleBaseSet, exampleRows])
    rw [hc, if_neg (by decide)]

/-- C4: `apply_parallel_shock` builds a new set carrying the base set's
analysis_date and day-count base, whose raw table is a fresh shifted copy of
the base table and whose curves are rebuilt from it; the base set is passed
as an immutable value in this model, mirroring the `copy(deep=True)`-then-
modify pattern of the code, so it is never mutated. -/
theorem claim_C4 (base_set : ForwardCurveSet) (shock : ParallelShock)
    (apply_to : Option (List String)) (out : ForwardCurveSet)
    (h : applyParallelShock base_set shock apply_to = .ok out) :
    out.analysis_date = base_set.analysis_date ∧ out.base = base_set.base ∧
    (∃ sel, normaliseApplyTo apply_to (availableIndexes base_set.points) = .ok sel ∧
      out.points = base_set.points.map (fun r =>
        if sel.contains r.IndexName then
          { r with FwdRate := r.FwdRate + shock.shift_decimal }
        else r)) ∧
    rebuildCurves out.points = .ok out.curves := by
  obtain ⟨sel, hn, hpts, had, hbase, hcur⟩ := applyParallelShock_ok base_set shock apply_to out h
  exact ⟨had, hbase, ⟨sel, hn, hpts⟩, hcur⟩

/-- C4 witness: the shocked example set carries the base analysis date and
day-count base. -/
theorem claim_C4_witness :
    applyParallelShock exampleBaseSet upShock none = .ok exampleShockedSet ∧
    exampleShockedSet.analysis_date = exampleBaseSet.analysis_date ∧
    exampleShockedSet.base = exampleBaseSet.base := by
  have h1 : applyParallelShock exampleBaseSet upShock none = .ok exampleShockedSet := by
    norm_num +decide [applyParallelShock, availableIndexes, normaliseApplyTo, exampleBaseSet,
      exampleRows, rebuildCurves, rebuildCurvesAux, curve_from_long_df, mkForwardCurve,
      strictlyInc, stripStr, upperStr, ParallelShock.shift_decimal, upShock, exampleShockedSet,
      List.dedup, strLe, charListLe]
  have hc := claim_C4 exampleBaseSet upShock none exampleShockedSet h1
  exact ⟨h1, hc.1, hc.2.1⟩

/-- C10: `_normalise_apply_to` raises the empty-shock-target error for any
explicit collection whose entries are all blank after stripping (entries are
stripped and blanks discarded before the emptiness check), and every resolved
index is a stripped form of a requested entry that occurs among the available
indices.  The engine and almready copies of `_normalise_apply_to` are
line-for-line identical in this logic. -/
theorem claim_C10 (l : List String) (available : List String) :
    ((∀ s ∈ l, stripStr s = "") →
      normaliseApplyTo (some l) available = .error .emptyShockTarget) ∧
    (∀ sel, normaliseApplyTo (some l) available = .ok sel →
      ∀ x ∈ sel, x ∈ available ∧ x ≠ "" ∧ ∃ s ∈ l, stripStr s = x) := by
  constructor
  · intro hall
    unfold normaliseApplyTo
    dsimp only
    have hfil : ((l.map (fun ix => stripStr ix)).filter (fun s => !(s == ""))) = [] := by
      rw [List.filter_eq_nil]
      intro a ha
      obtain ⟨s, hsl, hsa⟩ := List.mem_map.mp ha
      rw [← hsa, hall s hsl]
      simp
    rw [hfil]
    rfl
  · intro sel h x hx
    unfold normaliseApplyTo at h
    dsimp only at h
    cases hempty : ((l.map (fun ix => stripStr ix)).filter (fun s => !(s == ""))).dedup.isEmpty with
    | true =>
      rw [hempty] at h
      simp at h
    | false =>
      rw [hempty] at h
      cases hunk : (((l.map (fun ix => stripStr ix)).filter (fun s => !(s == ""))).dedup.filter
          (fun s => !(available.contains s))).isEmpty with
      | false =>
        rw [hunk] at h
        simp at h
      | true =>
        rw [hunk] at h
        simp only [Bool.not_true, Bool.false_eq_true, if_false] at h
        have hsel := Except.ok.inj h
        rw [← hsel] at hx
        have hxf := List.mem_dedup.mp hx
        have hxm := List.mem_filter.mp hxf
        have hne : x ≠ "" := by
          have := hxm.2
          simpa using this
        obtain ⟨s, hsl, hsx⟩ := List.mem_map.mp hxm.1
        refine ⟨?_, hne, s, hsl, hsx⟩
        have hun := List.isEmpty_iff.mp hunk
        have hmem := (List.filter_eq_nil.mp hun) x hx
        simp only [Bool.not_eq_true'] at hmem
        exact (contains_iff_mem_str available x).mp (by
          cases hcx : available.contains x
          · rw [hcx] at hmem
            simp at hmem
          · rfl)

/-- C10 witness: an apply_to of blank strings raises the empty-target error,
and a padded index name resolves by its stripped form. -/
theorem claim_C10_witness :
    (∀ s ∈ ["", "  "], stripStr s = "") ∧
    normaliseApplyTo (some ["", "  "]) ["EUR"] = .error .emptyShockTarget ∧
    normaliseApplyTo (some [" EUR "]) ["EUR"] = .ok ["EUR"] ∧
    ("EUR" ∈ (["EUR"] : List String) ∧ "EUR" ≠ "" ∧
      ∃ s ∈ ([" EUR "] : List String), stripStr s = "EUR") := by
  have hblank : ∀ s ∈ ["", "  "], stripStr s = "" := by decide
  have hok : normaliseApplyTo (some [" EUR "]) ["EUR"] = .ok ["EUR"] := by decide
  refine ⟨hblank, (claim_C10 ["", "  "] ["EUR"]).1 hblank, hok, ?_⟩
  exact (claim_C10 [" EUR "] ["EUR"]).2 ["EUR"] hok "EUR" (by decide)

theorem applyShocksAux_ok (base_set : ForwardCurveSet) (apply_to : Option (List String))
    (f : ParallelShock → ForwardCurveSet) :
    ∀ (rest : List ParallelShock) (out : List (String × ForwardCurveSet)),
      (∀ s ∈ rest, applyParallelShock base_set s apply_to = .ok (f s)) →
      (out.map Prod.fst ++ rest.map (fun s => s.name)).Nodup →
      applyParallelShocksAux base_set apply_to rest out =
        .ok (out ++ rest.map (fun s => (s.name, f s))) := by
  intro rest
  induction rest with
  | nil =>
    intro out _ _
    simp [applyParallelShocksAux]
  | cons shock rest' ih =>
    intro out hok hnd
    have hnotmem : shock.name ∉ out.map Prod.fst := by
      rw [List.nodup_append] at hnd
      intro hmem
      exact hnd.2.2 hmem (by simp)
    unfold applyParallelShocksAux
    rw [if_neg (fun hc => hnotmem ((contains_iff_mem_str _ _).mp hc))]
    rw [hok shock (by simp)]
    dsimp only
    rw [ih (out ++ [(shock.name, f shock)]) (fun s hs => hok s (by simp [hs]))
      (by simpa [List.append_assoc] using hnd)]
    simp

theorem applyShocksAux_dup (base_set : ForwardCurveSet) (apply_to : Option (List String))
    (f : ParallelShock → ForwardCurveSet) :
    ∀ (rest : List ParallelShock) (out : List (String × ForwardCurveSet)),
      (∀ s ∈ rest, applyParallelShock base_set s apply_to = .ok (f s)) →
      ((∃ x ∈ rest.map (fun s => s.name), x ∈ out.map Prod.fst) ∨
        ¬ (rest.map (fun s => s.name)).Nodup) →
      ∃ n, applyParallelShocksAux base_set apply_to rest out =
        .error (.duplicateScenario n) := by
  intro rest
  induction rest with
  | nil =>
    intro out _ hbad
    rcases hbad with ⟨x, hx, _⟩ | hnd
    · simp at hx
    · simp at hnd
  | cons shock rest' ih =>
    intro out hok hbad
    by_cases hmem : shock.name ∈ out.map Prod.fst
    · refine ⟨shock.name, ?_⟩
      unfold applyParallelShocksAux
      rw [if_pos ((contains_iff_mem_str _ _).mpr hmem)]
    · have hbad' : (∃ x ∈ rest'.map (fun s => s.name),
          x ∈ (out ++ [(shock.name, f shock)]).map Prod.fst) ∨
          ¬ (rest'.map (fun s => s.name)).Nodup := by
        rcases hbad with ⟨x, hx, hxo⟩ | hnd
        · rcases (by simpa using hx : x = shock.name ∨ ∃ a ∈ rest', a.name = x) with
            hx1 | ⟨a, ha, hax⟩
          · exact absurd (hx1 ▸ hxo) hmem
          · exact Or.inl ⟨x, List.mem_map.mpr ⟨a, ha, hax⟩, by simp [hxo]⟩
        · rw [List.map_cons, List.nodup_cons] at hnd
          push_neg at hnd
          by_cases hin : shock.name ∈ rest'.map (fun s => s.name)
          · exact Or.inl ⟨shock.name, hin, by simp⟩
          · exact Or.inr (hnd hin)
      obtain ⟨n, hn⟩ := ih (out ++ [(shock.name, f shock)])
        (fun s hs => hok s (by simp [hs])) hbad'
      refine ⟨n, ?_⟩
      unfold applyParallelShocksAux
      rw [if_neg (fun hc => hmem ((contains_iff_mem_str _ _).mp hc))]
      rw [hok shock (by simp)]
      dsimp only
      exact hn

/-- C9 counterexample: two shocks sharing a name, but an apply_to of blank
strings makes the first application fail, so apply_parallel_shocks fails with
EmptyShockTarget, not DuplicateScenario. -/
theorem claim_C9_counterexample :
    applyParallelShocks exampleBaseSet [⟨"S", 1⟩, ⟨"S", 1⟩] (some [""]) =
      .error .emptyShockTarget ∧
    ¬ ∃ n, applyParallelShocks exampleBaseSet [⟨"S", 1⟩, ⟨"S", 1⟩] (some [""]) =
      .error (.duplicateScenario n) := by
  have h1 : applyParallelShocks exampleBaseSet [⟨"S", 1⟩, ⟨"S", 1⟩] (some [""]) =
      .error .emptyShockTarget := by decide
  refine ⟨h1, ?_⟩
  rintro ⟨n, hn⟩
  rw [h1] at hn
  simp at hn

/-- C9 (amended): provided every shock in the batch applies successfully,
`apply_parallel_shocks` returns the mapping scenario name → shocked set when
all names are distinct, and fails with DuplicateScenario when two shocks
share a name.  (Without the success proviso an earlier shock's failure — e.g.
an empty shock target — surfaces instead, see the counterexample.) -/
theorem claim_C9 (base_set : ForwardCurveSet) (shocks : List ParallelShock)
    (apply_to : Option (List String)) (f : ParallelShock → ForwardCurveSet)
    (hok : ∀ s ∈ shocks, applyParallelShock base_set s apply_to = .ok (f s)) :
    ((shocks.map (fun s => s.name)).Nodup →
      applyParallelShocks base_set shocks apply_to =
        .ok (shocks.map (fun s => (s.name, f s)))) ∧
    (¬ (shocks.map (fun s => s.name)).Nodup →
      ∃ n, applyParallelShocks base_set shocks apply_to =
        .error (.duplicateScenario n)) := by
  constructor
  · intro hnd
    unfold applyParallelShocks
    rw [applyShocksAux_ok base_set apply_to f shocks [] hok (by simpa using hnd)]
    simp
  · intro hnd
    unfold applyParallelShocks
    exact applyShocksAux_dup base_set apply_to f shocks [] hok (Or.inr hnd)

/-- C9 witness: two distinct-named shocks on the example set produce the
scenario-name-indexed mapping of shocked sets. -/
theorem claim_C9_witness :
    (([upShock, dnShock].map (fun s => s.name)).Nodup) ∧
    applyParallelShocks exampleBaseSet [upShock, dnShock] none =
      .ok [("up", exampleShockedSet), ("dn", exampleShockedSetDn)] := by
  have hup : applyParallelShock exampleBaseSet upShock none = .ok exampleShockedSet := by
    norm_num +decide [applyParallelShock, availableIndexes, normaliseApplyTo, exampleBaseSet,
      exampleRows, rebuildCurves, rebuildCurvesAux, curve_from_long_df, mkForwardCurve,
      strictlyInc, stripStr, upperStr, ParallelShock.shift_decimal, upShock, exampleShockedSet,
      List.dedup, strLe, charListLe]
  have hdn : applyParallelShock exampleBaseSet dnShock none = .ok exampleShockedSetDn := by
    norm_num +decide [applyParallelShock, availableIndexes, normaliseApplyTo, exampleBaseSet,
      exampleRows, rebuildCurves, rebuildCurvesAux, curve_from_long_df, mkForwardCurve,
      strictlyInc, stripStr, upperStr, ParallelShock.shift_decimal, dnShock,
      exampleShockedSetDn, List.dedup, strLe, charListLe]
  have hnd : (([upShock, dnShock].map (fun s => s.name)).Nodup) := by decide
  refine ⟨hnd, ?_⟩
  have h := (claim_C9 exampleBaseSet [upShock, dnShock] none
    (fun s => if s.name = "up" then exampleShockedSet else exampleShockedSetDn)
    (by
      intro s hs
      rcases List.mem_cons.mp hs with h1 | h2
      · subst h1
        simpa [upShock] using hup
      · have h3 : s = dnShock := by simpa using h2
        subst h3
        simpa [dnShock] using hdn)).1 hnd
  rw [h]
  simp [upShock, dnShock]

end ALMReady
